import Mathlib

/-
Verification of the `@supports` condition module (rules/supports.rs):
the condition tree, its recursive-descent parser, the `and`/`or`
combinators, the vendor-prefix expansion pass and the precedence-aware
printer.  External collaborators (the CSS tokenizer, the property-id
resolver, the printer primitives and the browser-target table) are
modelled from the specification; everything else is translated from the
source.
-/

namespace Supports

/-- ASCII lower-casing of one character (model of ASCII case folding). -/
def asciiLower (c : Char) : Char :=
  if 'A' ≤ c ∧ c ≤ 'Z' then Char.ofNat (c.toNat + 32) else c

/-- ASCII lower-casing of a string. -/
def lowerStr (s : String) : String := String.mk (s.data.map asciiLower)

/-- Model of cssparser's ASCII case-insensitive comparison
(`eq_ignore_ascii_case`, `match_ignore_ascii_case!`). -/
def eqIgnoreCase (a b : String) : Bool := lowerStr a == lowerStr b

/-- Whitespace characters of the modelled tokenizer. -/
def wsChar (c : Char) : Bool := c = ' ' || c = '\t' || c = '\n' || c = '\r'

/-- Characters that may start an identifier token. -/
def identStartChar (c : Char) : Bool := c.isAlpha || c = '-' || c = '_'

/-- Characters that may continue an identifier token. -/
def identChar (c : Char) : Bool := identStartChar c || c.isDigit

/-- Characters that may continue a numeric/dimension token. -/
def numChar (c : Char) : Bool := identChar c || c = '.'

/-- Modelled from the spec: the vendor-prefix set attached to a property
identifier (a bit-set over the `no prefix` marker and the four vendor
markers; the source's `VendorPrefix` bitflags live outside `src/`). -/
structure VendorPrefix where
  none : Bool := false
  webkit : Bool := false
  moz : Bool := false
  ms : Bool := false
  o : Bool := false
deriving DecidableEq

/-- The empty prefix set. -/
def VendorPrefix.empty : VendorPrefix := {}

/-- The singleton `no prefix` marker set (`VendorPrefix::None`). -/
def VendorPrefix.noneOnly : VendorPrefix := { none := true }

/-- `VendorPrefix::is_empty`. -/
def VendorPrefix.is_empty (p : VendorPrefix) : Bool :=
  !(p.none || p.webkit || p.moz || p.ms || p.o)

/-- `VendorPrefix::or_none`: the set itself, or the `no prefix` marker when
the set is empty. -/
def VendorPrefix.or_none (p : VendorPrefix) : VendorPrefix :=
  if p.is_empty then VendorPrefix.noneOnly else p

/-- One vendor-prefix flag. -/
inductive VendorPrefix.Flag where
  | none
  | webkit
  | moz
  | ms
  | o
deriving DecidableEq

/-- Modelled from the spec: the canonical iteration order of a prefix set
(`for p in prefix`), lowest flag first. -/
def VendorPrefix.flags (p : VendorPrefix) : List VendorPrefix.Flag :=
  (if p.none then [VendorPrefix.Flag.none] else [])
    ++ (if p.webkit then [VendorPrefix.Flag.webkit] else [])
    ++ (if p.moz then [VendorPrefix.Flag.moz] else [])
    ++ (if p.ms then [VendorPrefix.Flag.ms] else [])
    ++ (if p.o then [VendorPrefix.Flag.o] else [])

/-- Modelled from the spec: serialization of one prefix flag
(`VendorPrefix::to_css`); the `no prefix` marker writes nothing. -/
def VendorPrefix.Flag.to_css : VendorPrefix.Flag → String
  | .none => ""
  | .webkit => "-webkit-"
  | .moz => "-moz-"
  | .ms => "-ms-"
  | .o => "-o-"

/-- The singleton set holding one flag. -/
def VendorPrefix.ofFlag : VendorPrefix.Flag → VendorPrefix
  | .none => { none := true }
  | .webkit => { webkit := true }
  | .moz => { moz := true }
  | .ms => { ms := true }
  | .o => { o := true }

/-- Modelled from the spec: a property identifier, exposing its canonical
(unprefixed) name and its current prefix set (the source's `PropertyId`
lives outside `src/`). -/
structure PropertyId where
  name : String
  prefixes : VendorPrefix
deriving DecidableEq

/-- List-level `isPrefixOf`, used instead of `String.startsWith` so that
everything reduces in the kernel. -/
def strStartsWith (s p : String) : Bool := p.data.isPrefixOf s.data

/-- Drop the first `n` characters of a string. -/
def strDrop (s : String) (n : Nat) : String := String.mk (s.data.drop n)

/-- Modelled from the spec: the property-identifier resolver.  Parsing a raw
property name recognises a leading vendor marker (ASCII case-insensitively)
and stores the remainder as the canonical name; an unprefixed name gets the
`no prefix` marker. -/
def PropertyId.parse_name (s : String) : PropertyId :=
  if strStartsWith (lowerStr s) "-webkit-" then ⟨strDrop s 8, { webkit := true }⟩
  else if strStartsWith (lowerStr s) "-moz-" then ⟨strDrop s 5, { moz := true }⟩
  else if strStartsWith (lowerStr s) "-ms-" then ⟨strDrop s 4, { ms := true }⟩
  else if strStartsWith (lowerStr s) "-o-" then ⟨strDrop s 3, { o := true }⟩
  else ⟨s, { none := true }⟩

/-- Modelled from the spec: the browser-target compatibility table, as the
function it realises: which prefix set a property name needs for the
configured targets (`Option.none` = the property does not resolve). -/
def Browsers := String → Option VendorPrefix

/-- Modelled from the spec: `PropertyId::set_prefixes_for_targets` —
recompute the identifier's prefix set against the target table;
unresolvable properties keep their original prefix set.  Only the prefix
set is rewritten, never the name. -/
def PropertyId.set_prefixes_for_targets (p : PropertyId) (targets : Browsers) : PropertyId :=
  match targets p.name with
  | some v => { p with prefixes := v }
  | Option.none => p

/-- Modelled from the spec: one CSS token of the external token source.
Block tokens (`Function`, `ParenthesisBlock`) carry their nested contents,
so every represented stream is token-balanced; `badString` is the error
token. -/
inductive Tok where
  | ident (s : String)
  | func (name : String) (block : List Tok)
  | paren (block : List Tok)
  | colon
  | ws (s : String)
  | num (s : String)
  | str (s : String)
  | badString (s : String)
  | delim (c : Char)

mutual

/-- The source text of one token (used to model `Parser::slice_from`). -/
def renderTok : Tok → String
  | .ident s => s
  | .func n b => n ++ "(" ++ renderList b ++ ")"
  | .paren b => "(" ++ renderList b ++ ")"
  | .colon => ":"
  | .ws s => s
  | .num s => s
  | .str s => "\"" ++ s ++ "\""
  | .badString s => "\"" ++ s
  | .delim c => String.singleton c

/-- The source text of a token list. -/
def renderList : List Tok → String
  | [] => ""
  | t :: ts => renderTok t ++ renderList ts

end

mutual

/-- Structural equality of tokens. -/
def beqTok : Tok → Tok → Bool
  | .ident a, .ident b => a == b
  | .func a x, .func b y => a == b && beqToks x y
  | .paren x, .paren y => beqToks x y
  | .colon, .colon => true
  | .ws a, .ws b => a == b
  | .num a, .num b => a == b
  | .str a, .str b => a == b
  | .badString a, .badString b => a == b
  | .delim a, .delim b => a == b
  | _, _ => false

/-- Structural equality of token lists. -/
def beqToks : List Tok → List Tok → Bool
  | [], [] => true
  | a :: as_, b :: bs => beqTok a b && beqToks as_ bs
  | _, _ => false

end

mutual

theorem beqTok_iff : ∀ a b : Tok, beqTok a b = true ↔ a = b
  | a, b => by
    cases a <;> cases b <;> simp [beqTok] <;> (try exact beqToks_iff _ _) <;>
      (try intro h; exact beqToks_iff _ _)

theorem beqToks_iff : ∀ a b : List Tok, beqToks a b = true ↔ a = b
  | [], [] => by simp [beqToks]
  | a :: as_, b :: bs => by
    simp [beqToks, Bool.and_eq_true, beqTok_iff a b, beqToks_iff as_ bs]
  | [], _ :: _ => by simp [beqToks]
  | _ :: _, [] => by simp [beqToks]

end

instance : DecidableEq Tok := fun a b =>
  decidable_of_iff (beqTok a b = true) (beqTok_iff a b)

/-- Recursion-depth measure of one token. -/
def sizeT : Tok → Nat
  | .func _ b => 3 + sizeLAux b
  | .paren b => 3 + sizeLAux b
  | _ => 1
where
  /-- Recursion-depth measure of a token list. -/
  sizeLAux : List Tok → Nat
  | [] => 0
  | t :: ts => sizeT t + sizeLAux ts

/-- Recursion-depth measure of a token list. -/
def sizeL : List Tok → Nat := sizeT.sizeLAux

mutual

/-- Model of `Parser::expect_no_error_token` restricted to one token: no
error token occurs, recursing through nested blocks. -/
def noErrTok : Tok → Bool
  | .badString _ => false
  | .func _ b => noErrToks b
  | .paren b => noErrToks b
  | _ => true

/-- Model of `Parser::expect_no_error_token` on a token list. -/
def noErrToks : List Tok → Bool
  | [] => true
  | t :: ts => noErrTok t && noErrToks ts

end

/-- One token of the flat (unnested) lexical stream. -/
inductive FlatTok where
  | ident (s : String)
  | funcOpen (s : String)
  | lparen
  | rparen
  | colon
  | ws (s : String)
  | num (s : String)
  | str (s : String)
  | badString (s : String)
  | delim (c : Char)
deriving DecidableEq

/-- The source text of one flat token. -/
def renderFlat : FlatTok → String
  | .ident s => s
  | .funcOpen s => s ++ "("
  | .lparen => "("
  | .rparen => ")"
  | .colon => ":"
  | .ws s => s
  | .num s => s
  | .str s => "\"" ++ s ++ "\""
  | .badString s => "\"" ++ s
  | .delim c => String.singleton c

/-- The source text of a flat token list. -/
def renderFlats : List FlatTok → String
  | [] => ""
  | t :: ts => renderFlat t ++ renderFlats ts

/-- Lexer state: the partial token being accumulated. -/
inductive LexSt where
  | start
  | inIdent (acc : String)
  | inNum (acc : String)
  | inWs (acc : String)
  | inStr (acc : String)
deriving DecidableEq

/-- Start a fresh token at character `c` (lexer in the `start` state). -/
def beginTok (c : Char) : List FlatTok × LexSt :=
  if c = '(' then ([.lparen], .start)
  else if c = ')' then ([.rparen], .start)
  else if c = ':' then ([.colon], .start)
  else if c = '"' then ([], .inStr "")
  else if wsChar c then ([], .inWs (String.singleton c))
  else if identStartChar c then ([], .inIdent (String.singleton c))
  else if c.isDigit then ([], .inNum (String.singleton c))
  else ([.delim c], .start)

/-- Emit the pending partial token at end of input; a pending string is the
`badString` error token (unterminated string). -/
def flushSt : LexSt → List FlatTok
  | .start => []
  | .inIdent a => [.ident a]
  | .inNum a => [.num a]
  | .inWs a => [.ws a]
  | .inStr a => [.badString a]

/-- One lexer step: consume character `c` in state `st`, emitting finished
flat tokens.  An identifier directly followed by `(` becomes a
function-open token. -/
def lexStep (st : LexSt) (c : Char) : List FlatTok × LexSt :=
  match st with
  | .start => beginTok c
  | .inIdent a =>
    if c = '(' then ([.funcOpen a], .start)
    else if identChar c then ([], .inIdent (a.push c))
    else
      let r := beginTok c
      (.ident a :: r.1, r.2)
  | .inNum a =>
    if numChar c then ([], .inNum (a.push c))
    else
      let r := beginTok c
      (.num a :: r.1, r.2)
  | .inWs a =>
    if wsChar c then ([], .inWs (a.push c))
    else
      let r := beginTok c
      (.ws a :: r.1, r.2)
  | .inStr a =>
    if c = '"' then ([.str a], .start)
    else if c = '\n' then
      let r := beginTok c
      (.badString a :: r.1, r.2)
    else ([], .inStr (a.push c))

/-- Run the lexer over a character list, returning the emitted tokens and
the final pending state. -/
def lexGo (st : LexSt) : List Char → List FlatTok × LexSt
  | [] => ([], st)
  | c :: cs =>
    let r := lexStep st c
    let r2 := lexGo r.2 cs
    (r.1 ++ r2.1, r2.2)

/-- The flat token stream of a character list (pending token flushed). -/
def lexAll (s : List Char) : List FlatTok :=
  (lexGo .start s).1 ++ flushSt (lexGo .start s).2

/-- Fold the flat stream into nested block tokens with an explicit stack of
open blocks.  An unmatched opener or closer fails. -/
def buildGo : List FlatTok → List (Option String × List Tok) → List Tok → Option (List Tok)
  | [], [], acc => some acc.reverse
  | [], _ :: _, _ => Option.none
  | f :: rest, stack, acc =>
    match f with
    | .lparen => buildGo rest ((Option.none, acc) :: stack) []
    | .funcOpen s => buildGo rest ((some s, acc) :: stack) []
    | .rparen =>
      match stack with
      | [] => Option.none
      | (nm, outer) :: stack2 =>
        let tok := match nm with
          | some n => Tok.func n acc.reverse
          | Option.none => Tok.paren acc.reverse
        buildGo rest stack2 (tok :: outer)
    | .ident s => buildGo rest stack (.ident s :: acc)
    | .colon => buildGo rest stack (.colon :: acc)
    | .ws s => buildGo rest stack (.ws s :: acc)
    | .num s => buildGo rest stack (.num s :: acc)
    | .str s => buildGo rest stack (.str s :: acc)
    | .badString s => buildGo rest stack (.badString s :: acc)
    | .delim c => buildGo rest stack (.delim c :: acc)

/-- Modelled from the spec: the external token source.  Turns raw text into
a balanced token stream; unbalanced parentheses (an unterminated block or a
stray closer) surface as a failure, per the spec's error taxonomy. -/
def tokenize (s : String) : Option (List Tok) := buildGo (lexAll s.data) [] []

/-- The `SupportsCondition` enum: a `<supports-condition>` tree. -/
inductive SupportsCondition where
  | not (c : SupportsCondition)
  | and (l : List SupportsCondition)
  | or (l : List SupportsCondition)
  | declaration (property_id : PropertyId) (value : String)
  | selector (s : String)
  | unknown (s : String)

mutual

/-- Structural equality of conditions (the derived `PartialEq`). -/
def beqSC : SupportsCondition → SupportsCondition → Bool
  | .not a, .not b => beqSC a b
  | .and x, .and y => beqSCs x y
  | .or x, .or y => beqSCs x y
  | .declaration p v, .declaration q w => p == q && v == w
  | .selector a, .selector b => a == b
  | .unknown a, .unknown b => a == b
  | _, _ => false

/-- Structural equality of condition lists. -/
def beqSCs : List SupportsCondition → List SupportsCondition → Bool
  | [], [] => true
  | a :: as_, b :: bs => beqSC a b && beqSCs as_ bs
  | _, _ => false

end

mutual

theorem beqSC_iff : ∀ a b : SupportsCondition, beqSC a b = true ↔ a = b
  | a, b => by
    cases a <;> cases b <;> simp [beqSC] <;> (try exact beqSC_iff _ _) <;>
      (try exact beqSCs_iff _ _) <;> (try intro h; exact beqSCs_iff _ _)

theorem beqSCs_iff : ∀ a b : List SupportsCondition, beqSCs a b = true ↔ a = b
  | [], [] => by simp [beqSCs]
  | a :: as_, b :: bs => by
    simp [beqSCs, Bool.and_eq_true, beqSC_iff a b, beqSCs_iff as_ bs]
  | [], _ :: _ => by simp [beqSCs]
  | _ :: _, [] => by simp [beqSCs]

end

instance : DecidableEq SupportsCondition := fun a b =>
  decidable_of_iff (beqSC a b = true) (beqSC_iff a b)

namespace SupportsCondition

/-- `SupportsCondition::and`: combine `b` into `self` under conjunction
(in-place in the source; here the updated value is returned). -/
def and_ (self : SupportsCondition) (b : SupportsCondition) : SupportsCondition :=
  match self with
  | .and a => if b ∈ a then .and a else .and (a ++ [b])
  | _ => if self = b then self else .and [self, b]

/-- `SupportsCondition::or`: combine `b` into `self` under disjunction. -/
def or_ (self : SupportsCondition) (b : SupportsCondition) : SupportsCondition :=
  match self with
  | .or a => if b ∈ a then .or a else .or (a ++ [b])
  | _ => if self = b then self else .or [self, b]

end SupportsCondition

mutual

/-- `SupportsCondition::set_prefixes_for_targets`: walk the tree and ask
each declaration whose prefix set is empty or holds the `no prefix` marker
to recompute its prefix set against the targets. -/
def SupportsCondition.set_prefixes_for_targets :
    SupportsCondition → Browsers → SupportsCondition
  | .not cond, targets => .not (cond.set_prefixes_for_targets targets)
  | .and items, targets => .and (setPrefixesList items targets)
  | .or items, targets => .or (setPrefixesList items targets)
  | .declaration property_id value, targets =>
    if property_id.prefixes.is_empty || property_id.prefixes.none then
      .declaration (property_id.set_prefixes_for_targets targets) value
    else
      .declaration property_id value
  | c, _ => c

/-- The member-wise walk of `set_prefixes_for_targets` over a list. -/
def setPrefixesList : List SupportsCondition → Browsers → List SupportsCondition
  | [], _ => []
  | c :: cs, targets =>
    c.set_prefixes_for_targets targets :: setPrefixesList cs targets

end

/-- `SupportsCondition::needs_parens`. -/
def SupportsCondition.needs_parens
    (self : SupportsCondition) (parent : SupportsCondition) : Bool :=
  match self with
  | .not _ => true
  | .and _ =>
    !(match parent with
      | .and _ => true
      | _ => false)
  | .or _ =>
    !(match parent with
      | .or _ => true
      | _ => false)
  | _ => false

/-- `to_css_with_parens_if_needed`, as a pure function of the rendered
child text. -/
def wrapParens (needsParens : Bool) (s : String) : String :=
  (if needsParens then "(" else "") ++ s ++ (if needsParens then ")" else "")

/-- Join rendered clauses with a separator (the `first` flag loop of the
source). -/
def joinSep (sep : String) : List String → String
  | [] => ""
  | [x] => x
  | x :: xs => x ++ sep ++ joinSep sep xs

mutual

/-- `SupportsCondition::to_css`.  The printer primitives are modelled from
the spec: `dest.delim(':', false)` writes `": "`. -/
def SupportsCondition.to_css : SupportsCondition → String
  | .not condition =>
    "not " ++ wrapParens (condition.needs_parens (.not condition)) condition.to_css
  | .and conditions => cssList " and " (.and conditions) conditions
  | .or conditions => cssList " or " (.or conditions) conditions
  | .declaration property_id value =>
    let pfx := property_id.prefixes.or_none
    "(" ++ (if pfx ≠ VendorPrefix.noneOnly then "(" else "")
      ++ joinSep ") or ("
        (pfx.flags.map fun p => p.to_css ++ property_id.name ++ ": " ++ value)
      ++ (if pfx ≠ VendorPrefix.noneOnly then ")" else "")
      ++ ")"
  | .selector sel => "selector(" ++ sel ++ ")"
  | .unknown u => u

/-- The member loop of `to_css` for `And`/`Or` lists: each member is
parenthesized per `needs_parens` against the list as parent. -/
def cssList (sep : String) (parent : SupportsCondition) :
    List SupportsCondition → String
  | [] => ""
  | [c] => wrapParens (c.needs_parens parent) c.to_css
  | c :: cs =>
    wrapParens (c.needs_parens parent) c.to_css ++ sep ++ cssList sep parent cs

end

/-- Model of `Parser::skip_whitespace` (also performed by `next()` before
each token): drop leading whitespace tokens. -/
def skipWsToks : List Tok → List Tok
  | .ws _ :: rest => skipWsToks rest
  | l => l

/-- `SupportsCondition::parse_declaration`: a property identifier, a colon,
then raw error-token-free text to the end of the block. -/
def SupportsCondition.parse_declaration (input : List Tok) :
    Option (SupportsCondition × List Tok) :=
  match skipWsToks input with
  | .ident s :: rest =>
    let property_id := PropertyId.parse_name s
    match skipWsToks rest with
    | .colon :: rest2 =>
      let value_toks := skipWsToks rest2
      if noErrToks value_toks then
        some (.declaration property_id (renderList value_toks), [])
      else Option.none
    | _ => Option.none
  | _ => Option.none

/-- The generic verbatim fallback at the end of `parse_in_parens`: skip to
the end of the block requiring no error token, then capture the whole
delimited span (`slice_from(pos)`) as `Unknown`. -/
def fallbackUnit (t : Tok) : Option SupportsCondition :=
  match t with
  | .func _ block => if noErrToks block then some (.unknown (renderTok t)) else Option.none
  | .paren block => if noErrToks block then some (.unknown (renderTok t)) else Option.none
  | _ => Option.none

mutual

/-- `SupportsCondition::parse`, over the token model, with explicit fuel
(a termination device; `parseFuelFor` below always suffices). -/
def parseF : Nat → List Tok → Option (SupportsCondition × List Tok)
  | 0, _ => Option.none
  | f + 1, input =>
    match skipWsToks input with
    | .ident s :: rest =>
      if eqIgnoreCase s "not" then
        match skipWsToks rest with
        | t :: rest2 =>
          match parseUnitF f t with
          | some c => some (.not c, rest2)
          | Option.none => Option.none
        | [] => Option.none
      else Option.none
    | t :: rest =>
      match parseUnitF f t with
      | some first =>
        let r := parseLoopF f Option.none first [] rest
        match r.1 with
        | some 1 => some (.and r.2.1, r.2.2)
        | some 2 => some (.or r.2.1, r.2.2)
        | _ => some (first, r.2.2)
      | Option.none => Option.none
    | [] => Option.none

  /-- The `loop` of `SupportsCondition::parse`: read an operator keyword and
  a further operand, fixing the list type at the first keyword.  On a failed
  attempt the cursor is reset but the already-fixed type persists (the
  closure mutates `expected_type` before parsing the operand).  Returns
  (expected type, accumulated conditions, remaining input). -/
def parseLoopF : Nat → Option Nat → SupportsCondition → List SupportsCondition →
    List Tok → Option Nat × List SupportsCondition × List Tok
  | 0, expected, _, conds, input => (expected, conds, input)
  | f + 1, expected, first, conds, input =>
    match skipWsToks input with
    | .ident s :: rest =>
      let found : Option Nat :=
        if eqIgnoreCase s "and" then some 1
        else if eqIgnoreCase s "or" then some 2
        else Option.none
      match found with
      | Option.none => (expected, conds, input)
      | some ft =>
        if expected ≠ Option.none ∧ expected ≠ some ft then (expected, conds, input)
        else
          match skipWsToks rest with
          | t :: rest2 =>
            match parseUnitF f t with
            | some c =>
              parseLoopF f (some ft) first
                (if conds.isEmpty then [first, c] else conds ++ [c]) rest2
            | Option.none => (some ft, conds, input)
          | [] => (some ft, conds, input)
    | _ => (expected, conds, input)

  /-- `SupportsCondition::parse_in_parens` applied to the single token it
  consumes (`input.next()?`); leading whitespace is skipped by the caller. -/
def parseUnitF : Nat → Tok → Option SupportsCondition
  | 0, _ => Option.none
  | f + 1, t =>
    match t with
    | .func name block =>
      if eqIgnoreCase name "selector" then
        if noErrToks block then some (.selector (renderList block))
        else fallbackUnit t
      else fallbackUnit t
    | .paren _ =>
      match tryBlockF f t with
      | some c => some c
      | Option.none => fallbackUnit t
    | _ => Option.none

  /-- The nested-block attempt of `parse_in_parens` for a parenthesis
  block: `parse_nested_block` (which is `parse_entirely`) over `try full
  condition, else declaration`. -/
def tryBlockF : Nat → Tok → Option SupportsCondition
  | 0, _ => Option.none
  | f + 1, .paren block =>
    match parseF f block with
    | some (c, rem) => if skipWsToks rem = [] then some c else Option.none
    | Option.none =>
      match SupportsCondition.parse_declaration block with
      | some (c, rem) => if skipWsToks rem = [] then some c else Option.none
      | Option.none => Option.none
  | _ + 1, _ => Option.none

end

/-- Fuel that always suffices for `parseF` (see the stability lemmas). -/
def parseFuelFor (input : List Tok) : Nat := 2 + sizeL input

/-- `SupportsCondition::parse` at its canonical fuel. -/
def SupportsCondition.parse (input : List Tok) :
    Option (SupportsCondition × List Tok) :=
  parseF (parseFuelFor input) input

/-- `SupportsCondition::parse_in_parens` at canonical fuel: skip leading
whitespace, read one token, parse it as a parenthesized-or-atomic unit. -/
def SupportsCondition.parse_in_parens (input : List Tok) :
    Option (SupportsCondition × List Tok) :=
  match skipWsToks input with
  | t :: rest =>
    match parseUnitF (sizeT t + 1) t with
    | some c => some (c, rest)
    | Option.none => Option.none
  | [] => Option.none

/-- Tokenize, then parse: `parse(print(C))`s composition with the external
token source. -/
def reparse (s : String) : Option (SupportsCondition × List Tok) :=
  (tokenize s).bind SupportsCondition.parse

/-- The nested-block attempt of `parse_in_parens` at its canonical fuel
(exactly the fuel `parse_in_parens` hands it). -/
def tryBlock (t : Tok) : Option SupportsCondition := tryBlockF (sizeT t) t

/-- Whether a condition is a `Not` node. -/
def SupportsCondition.isNot : SupportsCondition → Bool
  | .not _ => true
  | _ => false

/-- Whether a condition is an `And` list. -/
def SupportsCondition.isAnd : SupportsCondition → Bool
  | .and _ => true
  | _ => false

/-- Whether a condition is an `Or` list. -/
def SupportsCondition.isOr : SupportsCondition → Bool
  | .or _ => true
  | _ => false

/-- No member of the list occurs again later in it (pairwise structural
distinctness). -/
def pairwiseNe : List SupportsCondition → Bool
  | [] => true
  | c :: cs => !(decide (c ∈ cs)) && pairwiseNe cs

mutual

/-- Every `And`/`Or` list in the tree has pairwise structurally-distinct
members. -/
def dupFreeSC : SupportsCondition → Bool
  | .not c => dupFreeSC c
  | .and l => pairwiseNe l && dupFreeL l
  | .or l => pairwiseNe l && dupFreeL l
  | _ => true

/-- `dupFreeSC` over every member of a list. -/
def dupFreeL : List SupportsCondition → Bool
  | [] => true
  | c :: cs => dupFreeSC c && dupFreeL cs

end

mutual

/-- Erase every declaration's prefix set (used to state that the prefix
pass changes nothing but prefix sets). -/
def stripPrefixes : SupportsCondition → SupportsCondition
  | .not c => .not (stripPrefixes c)
  | .and l => .and (stripPrefixesL l)
  | .or l => .or (stripPrefixesL l)
  | .declaration p v => .declaration ⟨p.name, VendorPrefix.empty⟩ v
  | c => c

/-- `stripPrefixes` over every member of a list. -/
def stripPrefixesL : List SupportsCondition → List SupportsCondition
  | [] => []
  | c :: cs => stripPrefixes c :: stripPrefixesL cs

end

/-! ## Canonical token streams (round-trip infrastructure) -/

mutual

/-- The flat lexical stream of one nested token. -/
def flattenTok : Tok → List FlatTok
  | .ident s => [.ident s]
  | .func n b => .funcOpen n :: flattenToks b ++ [.rparen]
  | .paren b => .lparen :: flattenToks b ++ [.rparen]
  | .colon => [.colon]
  | .ws s => [.ws s]
  | .num s => [.num s]
  | .str s => [.str s]
  | .badString s => [.badString s]
  | .delim c => [.delim c]

/-- The flat lexical stream of a token list. -/
def flattenToks : List Tok → List FlatTok
  | [] => []
  | t :: ts => flattenTok t ++ flattenToks ts

end

/-- A nonempty identifier-shaped string. -/
def isIdentStr (s : String) : Bool :=
  match s.data with
  | [] => false
  | c :: cs => identStartChar c && cs.all identChar

/-- A nonempty numeric-token-shaped string. -/
def isNumStr (s : String) : Bool :=
  match s.data with
  | [] => false
  | c :: cs => c.isDigit && cs.all numChar

/-- A nonempty all-whitespace string. -/
def isWsStr (s : String) : Bool :=
  match s.data with
  | [] => false
  | c :: cs => wsChar c && cs.all wsChar

/-- The pending lexer state left behind by rendering one token. -/
inductive PendK where
  | closed
  | pIdent
  | pNum
  | pWs
deriving DecidableEq

/-- Which pending state a token's rendering ends in. -/
def pendK : Tok → PendK
  | .ident _ => .pIdent
  | .num _ => .pNum
  | .ws _ => .pWs
  | _ => .closed

/-- The first character of a token's rendering (canonical tokens render
nonempty, so the default is irrelevant). -/
def headCh : Tok → Char
  | .ident s => s.data.headD 'x'
  | .func n _ => n.data.headD 'x'
  | .paren _ => '('
  | .colon => ':'
  | .ws s => s.data.headD 'x'
  | .num s => s.data.headD 'x'
  | .str _ => '"'
  | .badString _ => '"'
  | .delim c => c

/-- Whether character `c` would be glued onto a pending token state instead
of starting a fresh token. -/
def glues : PendK → Char → Bool
  | .closed, _ => false
  | .pIdent, c => identChar c || c = '('
  | .pNum, c => numChar c
  | .pWs, c => wsChar c

/-- Adjacent tokens that re-lex independently: the second token's first
character does not glue onto the first token's pending state. -/
def sepTok (t u : Tok) : Bool := !(glues (pendK t) (headCh u))

mutual

/-- A token as the tokenizer itself would produce it: correctly shaped
payloads, no error token, nested contents canonical. -/
def canonTok : Tok → Bool
  | .ident s => isIdentStr s
  | .func n b => isIdentStr n && canonToks b
  | .paren b => canonToks b
  | .colon => true
  | .ws s => isWsStr s
  | .num s => isNumStr s
  | .str s => s.data.all (fun c => !(c = '"' || c = '\n'))
  | .badString _ => false
  | .delim c => !(identChar c || c.isDigit || wsChar c
      || c = '(' || c = ')' || c = ':' || c = '"')

/-- A token list as the tokenizer itself would produce it: every token
canonical and adjacent tokens separated. -/
def canonToks : List Tok → Bool
  | [] => true
  | [t] => canonTok t
  | t :: u :: rest => canonTok t && sepTok t u && canonToks (u :: rest)

end

/-- The leading token (if any) is not whitespace. -/
def headNotWs : List Tok → Bool
  | .ws _ :: _ => false
  | _ => true

/-- A raw-text slice exactly as the parser could have captured it: it
re-tokenizes, canonically, to an error-token-free stream whose rendering is
the slice itself. -/
def wfValue (s : String) : Bool :=
  match tokenize s with
  | some vt => canonToks vt && (renderList vt == s) && noErrToks vt
  | Option.none => false

/-- The token list of a stored raw-text slice. -/
def valToks (s : String) : List Tok := (tokenize s).getD []

/-- A parser-producible property identifier: its resolved prefix set is a
single flag, and printing the (possibly prefixed) name and re-parsing it
recovers the identifier. -/
def wfDeclPid (p : PropertyId) : Bool :=
  match (p.prefixes.or_none).flags with
  | [k] => isIdentStr (k.to_css ++ p.name)
      && (PropertyId.parse_name (k.to_css ++ p.name) == p)
  | _ => false

mutual

/-- The parser's structural invariants on a condition tree: `And`/`Or`
lists have at least two members, stored slices re-tokenize canonically,
`Unknown` texts are single blocks on which the nested sub-parsers fail. -/
def wfSC : SupportsCondition → Bool
  | .not c => wfSC c
  | .and l => decide (2 ≤ l.length) && wfL l
  | .or l => decide (2 ≤ l.length) && wfL l
  | .declaration p v => wfDeclPid p && wfValue v && headNotWs (valToks v)
  | .selector s => wfValue s
  | .unknown s =>
    match tokenize s with
    | some [Tok.func name block] =>
      canonToks [Tok.func name block]
        && (renderList [Tok.func name block] == s)
        && noErrToks block && !(eqIgnoreCase name "selector")
    | some [Tok.paren block] =>
      canonToks [Tok.paren block]
        && (renderList [Tok.paren block] == s)
        && noErrToks block
        && decide (tryBlock (Tok.paren block) = Option.none)
    | _ => false

/-- `wfSC` over every member of a list. -/
def wfL : List SupportsCondition → Bool
  | [] => true
  | c :: cs => wfSC c && wfL cs

end

mutual

/-- No `And` list has an `And` member and no `Or` list has an `Or` member
(directly-nested same-operator lists are flattened by print-then-reparse,
so the round-trip claim excludes them). -/
def noFlat : SupportsCondition → Bool
  | .not c => noFlat c
  | .and l => l.all (fun c => !c.isAnd) && noFlatL l
  | .or l => l.all (fun c => !c.isOr) && noFlatL l
  | _ => true

/-- `noFlat` over every member of a list. -/
def noFlatL : List SupportsCondition → Bool
  | [] => true
  | c :: cs => noFlat c && noFlatL cs

end

mutual

/-- The token stream of `to_css`: the tokenization of the printed text,
built structurally (defined for well-formed trees; the `[]` defaults are
unreachable under `wfSC`). -/
def printToks : SupportsCondition → List Tok
  | .not c =>
    .ident "not" :: .ws " " ::
      (if c.needs_parens (.not c) then [.paren (printToks c)] else printToks c)
  | .and l => printItems "and" (.and l) l
  | .or l => printItems "or" (.or l) l
  | .declaration p v =>
    match (p.prefixes.or_none).flags with
    | [VendorPrefix.Flag.none] =>
      [.paren (Tok.ident p.name :: Tok.colon :: Tok.ws " " :: valToks v)]
    | [k] =>
      [.paren [.paren (Tok.ident (k.to_css ++ p.name) :: Tok.colon :: Tok.ws " "
        :: valToks v)]]
    | _ => []
  | .selector s => [.func "selector" (valToks s)]
  | .unknown s => valToks s

/-- The token stream of an `And`/`Or` member list, members parenthesized
per `needs_parens`, joined by the operator keyword. -/
def printItems (kw : String) (parent : SupportsCondition) :
    List SupportsCondition → List Tok
  | [] => []
  | [c] => if c.needs_parens parent then [.paren (printToks c)] else printToks c
  | c :: cs =>
    (if c.needs_parens parent then [.paren (printToks c)] else printToks c)
      ++ .ws " " :: .ident kw :: .ws " " :: printItems kw parent cs

end

/-- Lexer-state kind, for uniform statements about pending states. -/
def stK : LexSt → PendK
  | .start => .closed
  | .inIdent _ => .pIdent
  | .inNum _ => .pNum
  | .inWs _ => .pWs
  | .inStr _ => .closed

/-- The pending state after lexing one rendered token from `start`. -/
def pendSt : Tok → LexSt
  | .ident s => .inIdent s
  | .num s => .inNum s
  | .ws s => .inWs s
  | _ => .start

/-- The flat tokens already emitted after lexing one rendered token (the
pending part excluded). -/
def preT : Tok → List FlatTok
  | .ident _ => []
  | .num _ => []
  | .ws _ => []
  | t => flattenTok t

/-- Simulated lexer output over a rendered token list: emitted tokens and
final pending state. -/
def lexSim : List Tok → List FlatTok × LexSt
  | [] => ([], .start)
  | [t] => (preT t, pendSt t)
  | t :: ts => (flattenTok t ++ (lexSim ts).1, (lexSim ts).2)

/-- `parse_in_parens`s unit parser at its canonical fuel. -/
def parseUnit (t : Tok) : Option SupportsCondition := parseUnitF (sizeT t + 1) t

/-- The parse loop at its canonical fuel. -/
def parseLoop (expected : Option Nat) (first : SupportsCondition)
    (conds : List SupportsCondition) (input : List Tok) :
    Option Nat × List SupportsCondition × List Tok :=
  parseLoopF (sizeL input + 2) expected first conds input

/-- The single token a condition prints to when parenthesized as a unit:
block-kind conditions get wrapping parentheses, atomic ones are already a
single block token. -/
def opTok : SupportsCondition → Tok
  | .not c => .paren (printToks (.not c))
  | .and l => .paren (printToks (.and l))
  | .or l => .paren (printToks (.or l))
  | .declaration p v =>
    match (p.prefixes.or_none).flags with
    | [VendorPrefix.Flag.none] =>
      .paren (Tok.ident p.name :: Tok.colon :: Tok.ws " " :: valToks v)
    | [k] =>
      .paren [.paren (Tok.ident (VendorPrefix.Flag.to_css k ++ p.name)
        :: Tok.colon :: Tok.ws " " :: valToks v)]
    | _ => Tok.colon
  | .selector s => .func "selector" (valToks s)
  | .unknown s => (valToks s).headD Tok.colon

/-! ## Supporting lemmas -/

theorem pairwiseNe_append (l : List SupportsCondition) (b : SupportsCondition)
    (h1 : pairwiseNe l = true) (h2 : b ∉ l) : pairwiseNe (l ++ [b]) = true := by
  induction l with
  | nil => simp [pairwiseNe]
  | cons c cs ih =>
    simp only [pairwiseNe, Bool.and_eq_true, Bool.not_eq_true',
      decide_eq_false_iff_not] at h1
    simp only [List.cons_append, pairwiseNe, Bool.and_eq_true, Bool.not_eq_true',
      decide_eq_false_iff_not]
    refine ⟨fun hm => ?_, ih h1.2 (fun hm => h2 (List.mem_cons_of_mem _ hm))⟩
    rcases List.mem_append.mp hm with hc | hc
    · exact h1.1 hc
    · rw [List.mem_singleton] at hc
      exact h2 (by rw [hc]; exact List.mem_cons_self _ _)

theorem dupFreeL_append (l : List SupportsCondition) (b : SupportsCondition) :
    dupFreeL (l ++ [b]) = (dupFreeL l && dupFreeSC b) := by
  induction l with
  | nil => simp [dupFreeL]
  | cons c cs ih => simp [dupFreeL, ih, Bool.and_assoc]

theorem dupFree_pair (x b : SupportsCondition) (hx : dupFreeSC x = true)
    (hb : dupFreeSC b = true) (hne : x ≠ b) :
    dupFreeSC (.and [x, b]) = true ∧ dupFreeSC (.or [x, b]) = true := by
  simp [dupFreeSC, pairwiseNe, dupFreeL, hx, hb, List.mem_singleton, hne]

theorem dupFree_combine (x b : SupportsCondition)
    (hx : dupFreeSC x = true) (hb : dupFreeSC b = true) :
    dupFreeSC (x.and_ b) = true ∧ dupFreeSC (x.or_ b) = true := by
  constructor
  · cases x with
    | and l =>
      simp only [SupportsCondition.and_]
      by_cases hmem : b ∈ l
      · simp [hmem, hx]
      · simp only [hmem, if_false]
        simp only [dupFreeSC, Bool.and_eq_true] at hx ⊢
        exact ⟨pairwiseNe_append l b hx.1 hmem, by
          rw [dupFreeL_append]; simp [hx.2, hb]⟩
    | not c =>
      simp only [SupportsCondition.and_]
      by_cases he : SupportsCondition.not c = b
      · simpa [he] using hb
      · simpa [he] using (dupFree_pair _ b hx hb he).1
    | or l =>
      simp only [SupportsCondition.and_]
      by_cases he : SupportsCondition.or l = b
      · simpa [he] using hb
      · simpa [he] using (dupFree_pair _ b hx hb he).1
    | declaration p v =>
      simp only [SupportsCondition.and_]
      by_cases he : SupportsCondition.declaration p v = b
      · simpa [he] using hb
      · simpa [he] using (dupFree_pair _ b hx hb he).1
    | selector s =>
      simp only [SupportsCondition.and_]
      by_cases he : SupportsCondition.selector s = b
      · simpa [he] using hb
      · simpa [he] using (dupFree_pair _ b hx hb he).1
    | unknown s =>
      simp only [SupportsCondition.and_]
      by_cases he : SupportsCondition.unknown s = b
      · simpa [he] using hb
      · simpa [he] using (dupFree_pair _ b hx hb he).1
  · cases x with
    | or l =>
      simp only [SupportsCondition.or_]
      by_cases hmem : b ∈ l
      · simp [hmem, hx]
      · simp only [hmem, if_false]
        simp only [dupFreeSC, Bool.and_eq_true] at hx ⊢
        exact ⟨pairwiseNe_append l b hx.1 hmem, by
          rw [dupFreeL_append]; simp [hx.2, hb]⟩
    | not c =>
      simp only [SupportsCondition.or_]
      by_cases he : SupportsCondition.not c = b
      · simpa [he] using hb
      · simpa [he] using (dupFree_pair _ b hx hb he).2
    | and l =>
      simp only [SupportsCondition.or_]
      by_cases he : SupportsCondition.and l = b
      · simpa [he] using hb
      · simpa [he] using (dupFree_pair _ b hx hb he).2
    | declaration p v =>
      simp only [SupportsCondition.or_]
      by_cases he : SupportsCondition.declaration p v = b
      · simpa [he] using hb
      · simpa [he] using (dupFree_pair _ b hx hb he).2
    | selector s =>
      simp only [SupportsCondition.or_]
      by_cases he : SupportsCondition.selector s = b
      · simpa [he] using hb
      · simpa [he] using (dupFree_pair _ b hx hb he).2
    | unknown s =>
      simp only [SupportsCondition.or_]
      by_cases he : SupportsCondition.unknown s = b
      · simpa [he] using hb
      · simpa [he] using (dupFree_pair _ b hx hb he).2

mutual

theorem strip_set : ∀ (c : SupportsCondition) (t : Browsers),
    stripPrefixes (c.set_prefixes_for_targets t) = stripPrefixes c
  | .not c, t => by
    simp [SupportsCondition.set_prefixes_for_targets, stripPrefixes, strip_set c t]
  | .and l, t => by
    simp [SupportsCondition.set_prefixes_for_targets, stripPrefixes, strip_setL l t]
  | .or l, t => by
    simp [SupportsCondition.set_prefixes_for_targets, stripPrefixes, strip_setL l t]
  | .declaration p v, t => by
    simp only [SupportsCondition.set_prefixes_for_targets]
    by_cases h : (p.prefixes.is_empty || p.prefixes.none) = true
    · simp only [h, if_true, stripPrefixes, PropertyId.set_prefixes_for_targets]
      cases t p.name <;> rfl
    · simp [h]
  | .selector s, t => rfl
  | .unknown s, t => rfl

theorem strip_setL : ∀ (l : List SupportsCondition) (t : Browsers),
    stripPrefixesL (setPrefixesList l t) = stripPrefixesL l
  | [], _ => rfl
  | c :: cs, t => by
    simp [setPrefixesList, stripPrefixesL, strip_set c t, strip_setL cs t]

end

theorem setPrefixesList_length (l : List SupportsCondition) (t : Browsers) :
    (setPrefixesList l t).length = l.length := by
  induction l with
  | nil => rfl
  | cons c cs ih => simp [setPrefixesList, ih]

theorem and_not_mem_self (l : List SupportsCondition) :
    SupportsCondition.and l ∉ l := by
  intro hm
  have h1 := List.sizeOf_lt_of_mem hm
  have h2 : sizeOf (SupportsCondition.and l) = 1 + sizeOf l := by
    simp
  omega

theorem or_not_mem_self (l : List SupportsCondition) :
    SupportsCondition.or l ∉ l := by
  intro hm
  have h1 := List.sizeOf_lt_of_mem hm
  have h2 : sizeOf (SupportsCondition.or l) = 1 + sizeOf l := by
    simp
  omega

theorem lexGo_append (a b : List Char) (st : LexSt) :
    lexGo st (a ++ b)
      = ((lexGo st a).1 ++ (lexGo (lexGo st a).2 b).1, (lexGo (lexGo st a).2 b).2) := by
  induction a generalizing st with
  | nil => simp [lexGo]
  | cons c cs ih => simp [lexGo, ih]

theorem wsChar_cases (c : Char) (h : wsChar c = true) :
    c = ' ' ∨ c = '\t' ∨ c = '\n' ∨ c = '\r' := by
  have := h
  simp only [wsChar, Bool.or_eq_true, decide_eq_true_eq] at this
  tauto

theorem identStart_not_ws (c : Char) (h : identStartChar c = true) : wsChar c = false := by
  by_contra hw
  rw [Bool.not_eq_false] at hw
  rcases wsChar_cases c hw with h1 | h1 | h1 | h1 <;> subst h1 <;> exact absurd h (by decide)

theorem digit_not_identStart (c : Char) (h : c.isDigit = true) :
    identStartChar c = false := by
  simp only [Char.isDigit, Bool.and_eq_true, decide_eq_true_eq] at h
  have h1 : 48 ≤ c.val.toNat := h.1
  have h2 : c.val.toNat ≤ 57 := h.2
  have hu : ¬ ((65:UInt32) ≤ c.val) := fun hh => by
    have h3 : (65:UInt32).toNat ≤ c.val.toNat := hh
    have h4 : (65:UInt32).toNat = 65 := rfl
    omega
  have hl : ¬ ((97:UInt32) ≤ c.val) := fun hh => by
    have h3 : (97:UInt32).toNat ≤ c.val.toNat := hh
    have h4 : (97:UInt32).toNat = 97 := rfl
    omega
  have hm : ¬ (c = '-') := fun e => by
    subst e
    have h4 : ('-').val.toNat = 45 := rfl
    omega
  have hn : ¬ (c = '_') := fun e => by
    subst e
    have h4 : ('_').val.toNat = 95 := rfl
    omega
  simp [identStartChar, Char.isAlpha, Char.isUpper, Char.isLower, hu, hl, hm, hn]

theorem digit_not_ws (c : Char) (h : c.isDigit = true) : wsChar c = false := by
  by_contra hw
  rw [Bool.not_eq_false] at hw
  rcases wsChar_cases c hw with h1 | h1 | h1 | h1 <;> subst h1 <;> exact absurd h (by decide)

theorem beginTok_ident (c : Char) (h : identStartChar c = true) :
    beginTok c = ([], .inIdent (String.singleton c)) := by
  have h1 : ¬ (c = '(') := fun e => by subst e; exact absurd h (by decide)
  have h2 : ¬ (c = ')') := fun e => by subst e; exact absurd h (by decide)
  have h3 : ¬ (c = ':') := fun e => by subst e; exact absurd h (by decide)
  have h4 : ¬ (c = '"') := fun e => by subst e; exact absurd h (by decide)
  simp [beginTok, h1, h2, h3, h4, identStart_not_ws c h, h]

theorem beginTok_num (c : Char) (h : c.isDigit = true) :
    beginTok c = ([], .inNum (String.singleton c)) := by
  have h1 : ¬ (c = '(') := fun e => by subst e; exact absurd h (by decide)
  have h2 : ¬ (c = ')') := fun e => by subst e; exact absurd h (by decide)
  have h3 : ¬ (c = ':') := fun e => by subst e; exact absurd h (by decide)
  have h4 : ¬ (c = '"') := fun e => by subst e; exact absurd h (by decide)
  simp [beginTok, h1, h2, h3, h4, digit_not_ws c h, digit_not_identStart c h, h]

theorem beginTok_ws (c : Char) (h : wsChar c = true) :
    beginTok c = ([], .inWs (String.singleton c)) := by
  rcases wsChar_cases c h with h1 | h1 | h1 | h1 <;> subst h1 <;> rfl

theorem beginTok_delim (c : Char)
    (h : (identChar c || c.isDigit || wsChar c
      || c = '(' || c = ')' || c = ':' || c = '"') = false) :
    beginTok c = ([.delim c], .start) := by
  simp only [Bool.or_eq_false_iff] at h
  obtain ⟨⟨⟨⟨⟨⟨hic, hd⟩, hw⟩, h1⟩, h2⟩, h3⟩, h4⟩ := h
  have hs : identStartChar c = false := by
    simp only [identChar, Bool.or_eq_false_iff] at hic
    exact hic.1
  simp only [beginTok, decide_eq_false_iff_not] at *
  simp [h1, h2, h3, h4, hw, hs, hd, decide_eq_false_iff_not]

theorem lexGo_identRun (cs : List Char) (acc : String) (h : cs.all identChar = true) :
    lexGo (.inIdent acc) cs = ([], .inIdent ⟨acc.data ++ cs⟩) := by
  induction cs generalizing acc with
  | nil => simp [lexGo]
  | cons c rest ih =>
    simp only [List.all_cons, Bool.and_eq_true] at h
    have hne : ¬ (c = '(') := fun e => by subst e; exact absurd h.1 (by decide)
    simp only [lexGo, lexStep, hne, if_false, h.1, if_true]
    rw [ih (acc.push c) h.2]
    simp [String.push]

theorem lexGo_numRun (cs : List Char) (acc : String) (h : cs.all numChar = true) :
    lexGo (.inNum acc) cs = ([], .inNum (String.mk (acc.data ++ cs))) := by
  induction cs generalizing acc with
  | nil => simp [lexGo]
  | cons c rest ih =>
    simp only [List.all_cons, Bool.and_eq_true] at h
    simp only [lexGo, lexStep, h.1, if_true]
    rw [ih (acc.push c) h.2]
    simp [String.push]

theorem lexGo_wsRun (cs : List Char) (acc : String) (h : cs.all wsChar = true) :
    lexGo (.inWs acc) cs = ([], .inWs (String.mk (acc.data ++ cs))) := by
  induction cs generalizing acc with
  | nil => simp [lexGo]
  | cons c rest ih =>
    simp only [List.all_cons, Bool.and_eq_true] at h
    simp only [lexGo, lexStep, h.1, if_true]
    rw [ih (acc.push c) h.2]
    simp [String.push]

theorem lexGo_strRun (cs : List Char) (acc : String)
    (h : cs.all (fun c => !(c = '"' || c = '\n')) = true) :
    lexGo (.inStr acc) cs = ([], .inStr (String.mk (acc.data ++ cs))) := by
  induction cs generalizing acc with
  | nil => simp [lexGo]
  | cons c rest ih =>
    simp only [List.all_cons, Bool.and_eq_true, Bool.not_eq_true', Bool.or_eq_false_iff,
      decide_eq_false_iff_not] at h
    simp only [lexGo, lexStep, h.1.1, h.1.2, if_false]
    rw [ih (acc.push c) (by simpa using h.2)]
    simp [String.push]

theorem flushStep (st : LexSt) (c : Char) (hs : ∀ a, st ≠ .inStr a)
    (hg : glues (stK st) c = false) :
    lexStep st c = (flushSt st ++ (beginTok c).1, (beginTok c).2) := by
  cases st with
  | start => simp [lexStep, flushSt]
  | inIdent a =>
    simp only [stK, glues, Bool.or_eq_false_iff, decide_eq_false_iff_not] at hg
    simp [lexStep, hg.1, hg.2, flushSt]
  | inNum a =>
    simp only [stK, glues] at hg
    simp [lexStep, hg, flushSt]
  | inWs a =>
    simp only [stK, glues] at hg
    simp [lexStep, hg, flushSt]
  | inStr a => exact absurd rfl (hs a)

theorem lexGo_break (st : LexSt) (c : Char) (more : List Char) (hs : ∀ a, st ≠ .inStr a)
    (hg : glues (stK st) c = false) :
    lexGo st (c :: more)
      = (flushSt st ++ (lexGo .start (c :: more)).1, (lexGo .start (c :: more)).2) := by
  have h1 : lexStep .start c = beginTok c := rfl
  simp only [lexGo, flushStep st c hs hg, h1, List.append_assoc]



theorem preT_flush (t : Tok) : preT t ++ flushSt (pendSt t) = flattenTok t := by
  cases t <;> simp [preT, pendSt, flushSt, flattenTok]

theorem lexSim_flush : ∀ ts : List Tok,
    (lexSim ts).1 ++ flushSt (lexSim ts).2 = flattenToks ts
  | [] => rfl
  | [t] => by simp [lexSim, flattenToks, preT_flush]
  | t :: u :: rest => by
    simp only [lexSim, flattenToks, List.append_assoc]
    rw [lexSim_flush (u :: rest)]
    simp [flattenToks]

theorem lexSim_not_inStr : ∀ (ts : List Tok) (a : String), (lexSim ts).2 ≠ .inStr a
  | [], a => by simp [lexSim]
  | [t], a => by cases t <;> simp [lexSim, pendSt]
  | t :: u :: rest, a => by
    simp only [lexSim]
    exact lexSim_not_inStr (u :: rest) a

theorem pendSt_not_inStr (t : Tok) (a : String) : pendSt t ≠ .inStr a := by
  cases t <;> simp [pendSt]

theorem stK_pendSt (t : Tok) : stK (pendSt t) = pendK t := by
  cases t <;> rfl

theorem glues_rparen (k : PendK) : glues k ')' = false := by
  cases k <;> decide

theorem renderTok_head (u : Tok) (h : canonTok u = true) :
    ∃ cs, (renderTok u).data = headCh u :: cs := by
  cases u with
  | ident s =>
    simp only [canonTok, isIdentStr] at h
    split at h
    · exact absurd h (by simp)
    · next c cs heq => exact ⟨cs, by simp [renderTok, headCh, heq]⟩
  | func n b =>
    simp only [canonTok, Bool.and_eq_true] at h
    have h2 := h.1
    simp only [isIdentStr] at h2
    split at h2
    · exact absurd h2 (by simp)
    · next c cs heq =>
      refine ⟨cs ++ '(' :: (renderList b).data ++ [')'], ?_⟩
      simp [renderTok, String.data_append, heq, headCh]
  | paren b => exact ⟨(renderList b).data ++ [')'], by simp [renderTok, String.data_append, headCh]⟩
  | colon => exact ⟨[], rfl⟩
  | ws s =>
    simp only [canonTok, isWsStr] at h
    split at h
    · exact absurd h (by simp)
    · next c cs heq => exact ⟨cs, by simp [renderTok, headCh, heq]⟩
  | num s =>
    simp only [canonTok, isNumStr] at h
    split at h
    · exact absurd h (by simp)
    · next c cs heq => exact ⟨cs, by simp [renderTok, headCh, heq]⟩
  | str s => exact ⟨s.data ++ ['"'], by simp [renderTok, String.data_append, headCh]⟩
  | badString s => exact absurd h (by simp [canonTok])
  | delim c => exact ⟨[], by simp [renderTok, headCh, String.singleton]⟩

theorem lexGo_identStr (s : String) (h : isIdentStr s = true) :
    lexGo .start s.data = ([], .inIdent s) := by
  simp only [isIdentStr] at h
  split at h
  · exact absurd h (by simp)
  · next c cs heq =>
    simp only [Bool.and_eq_true] at h
    rw [heq]
    simp only [lexGo, lexStep]
    rw [beginTok_ident c h.1, lexGo_identRun cs (String.singleton c) h.2]
    simp [String.singleton]
    congr 1
    conv_rhs => rw [show s = ⟨s.data⟩ from rfl, heq]

theorem lexGo_numStr (s : String) (h : isNumStr s = true) :
    lexGo .start s.data = ([], .inNum s) := by
  simp only [isNumStr] at h
  split at h
  · exact absurd h (by simp)
  · next c cs heq =>
    simp only [Bool.and_eq_true] at h
    rw [heq]
    simp only [lexGo, lexStep]
    rw [beginTok_num c h.1, lexGo_numRun cs (String.singleton c) h.2]
    simp [String.singleton]
    congr 1
    conv_rhs => rw [show s = ⟨s.data⟩ from rfl, heq]

theorem lexGo_wsStr (s : String) (h : isWsStr s = true) :
    lexGo .start s.data = ([], .inWs s) := by
  simp only [isWsStr] at h
  split at h
  · exact absurd h (by simp)
  · next c cs heq =>
    simp only [Bool.and_eq_true] at h
    rw [heq]
    simp only [lexGo, lexStep]
    rw [beginTok_ws c h.1, lexGo_wsRun cs (String.singleton c) h.2]
    simp [String.singleton]
    congr 1
    conv_rhs => rw [show s = ⟨s.data⟩ from rfl, heq]



theorem lexGo_single_rparen (st : LexSt) (hs : ∀ a, st ≠ .inStr a) :
    lexGo st [')'] = (flushSt st ++ [.rparen], .start) := by
  have h1 := flushStep st ')' hs (glues_rparen (stK st))
  simp only [lexGo, h1]
  simp [beginTok]

mutual

theorem lexTok_sim : ∀ t : Tok, canonTok t = true →
    lexGo .start (renderTok t).data = (preT t, pendSt t)
  | .ident s, h => by
    simp only [canonTok] at h
    simpa [renderTok, preT, pendSt] using lexGo_identStr s h
  | .num s, h => by
    simp only [canonTok] at h
    simpa [renderTok, preT, pendSt] using lexGo_numStr s h
  | .ws s, h => by
    simp only [canonTok] at h
    simpa [renderTok, preT, pendSt] using lexGo_wsStr s h
  | .colon, _ => by rfl
  | .delim c, h => by
    simp only [canonTok, Bool.not_eq_true'] at h
    have hd : (renderTok (.delim c)).data = [c] := by
      simp [renderTok, String.singleton]
    rw [hd]
    simp only [lexGo, lexStep]
    rw [beginTok_delim c h]
    rfl
  | .str s, h => by
    simp only [canonTok] at h
    have hd : (renderTok (.str s)).data = '"' :: (s.data ++ ['"']) := by
      simp [renderTok, String.data_append]
    rw [hd]
    simp only [lexGo, lexStep]
    have hb : beginTok '"' = ([], .inStr "") := rfl
    rw [hb, lexGo_append]
    rw [lexGo_strRun s.data "" h]
    have he : (String.mk ("".data ++ s.data)) = s := by
      show (⟨[] ++ s.data⟩ : String) = s
      simp
    rw [he]
    simp [lexGo, lexStep, preT, pendSt, flattenTok]
  | .func n b, h => by
    simp only [canonTok, Bool.and_eq_true] at h
    have hd : (renderTok (.func n b)).data
        = n.data ++ ('(' :: ((renderList b).data ++ [')'])) := by
      simp [renderTok, String.data_append]
    rw [hd, lexGo_append, lexGo_identStr n h.1]
    have hstep : lexStep (LexSt.inIdent n) '(' = ([.funcOpen n], .start) := rfl
    simp only [lexGo, hstep]
    rw [lexGo_append, lexList_sim b h.2,
      lexGo_single_rparen (lexSim b).2 (lexSim_not_inStr b)]
    simp only [preT, pendSt, flattenTok, List.append_assoc, List.nil_append]
    rw [← List.append_assoc (lexSim b).1, lexSim_flush b]
    simp
  | .paren b, h => by
    simp only [canonTok] at h
    have hd : (renderTok (.paren b)).data
        = '(' :: ((renderList b).data ++ [')']) := by
      simp [renderTok, String.data_append]
    rw [hd]
    simp only [lexGo, lexStep]
    have hb : beginTok '(' = ([.lparen], .start) := rfl
    rw [hb, lexGo_append, lexList_sim b h,
      lexGo_single_rparen (lexSim b).2 (lexSim_not_inStr b)]
    simp only [preT, pendSt, flattenTok, List.append_assoc, List.nil_append]
    rw [← List.append_assoc (lexSim b).1, lexSim_flush b]
    simp
  | .badString s, h => by simp [canonTok] at h

theorem lexList_sim : ∀ ts : List Tok, canonToks ts = true →
    lexGo .start (renderList ts).data = lexSim ts
  | [], _ => by simp [renderList, lexGo, lexSim]
  | [t], h => by
    simp only [canonToks] at h
    rw [show (renderList [t]).data = (renderTok t).data from by
      simp [renderList, String.data_append]]
    rw [lexTok_sim t h]
    rfl
  | t :: u :: rest, h => by
    rw [show canonToks (t :: u :: rest)
        = ((canonTok t && sepTok t u) && canonToks (u :: rest)) from rfl,
      Bool.and_eq_true, Bool.and_eq_true] at h
    obtain ⟨⟨ht, hsep⟩, htail⟩ := h
    have hd : (renderList (t :: u :: rest)).data
        = (renderTok t).data ++ (renderList (u :: rest)).data := by
      simp [renderList, String.data_append]
    rw [hd, lexGo_append, lexTok_sim t ht]
    have hcu : canonTok u = true := by
      revert htail
      cases rest with
      | nil => intro htail; simpa [canonToks] using htail
      | cons a b =>
        intro htail
        simp only [canonToks, Bool.and_eq_true] at htail
        exact htail.1.1
    obtain ⟨cs0, hu0⟩ := renderTok_head u hcu
    have hd2 : (renderList (u :: rest)).data = headCh u :: (cs0 ++ (renderList rest).data) := by
      simp [renderList, String.data_append, hu0]
    have hg : glues (stK (pendSt t)) (headCh u) = false := by
      rw [stK_pendSt]
      simpa [sepTok, Bool.not_eq_true'] using hsep
    rw [hd2, lexGo_break (pendSt t) (headCh u) _ (pendSt_not_inStr t) hg, ← hd2]
    rw [lexList_sim (u :: rest) htail]
    simp only [lexSim]
    rw [← List.append_assoc (preT t), preT_flush t]

end

theorem lexAll_render (ts : List Tok) (h : canonToks ts = true) :
    lexAll (renderList ts).data = flattenToks ts := by
  simp only [lexAll]
  rw [lexList_sim ts h]
  exact lexSim_flush ts



mutual

theorem buildGo_flattenTok : ∀ (t : Tok) (rest : List FlatTok)
    (stack : List (Option String × List Tok)) (acc : List Tok),
    buildGo (flattenTok t ++ rest) stack acc = buildGo rest stack (t :: acc)
  | .ident s, rest, stack, acc => by simp [flattenTok, buildGo]
  | .func n b, rest, stack, acc => by
    simp only [flattenTok, List.cons_append, buildGo]
    rw [show ((flattenToks b).append [FlatTok.rparen]).append rest
        = flattenToks b ++ ([FlatTok.rparen] ++ rest) by simp,
      buildGo_flattenToks b ([FlatTok.rparen] ++ rest) ((some n, acc) :: stack) []]
    simp [buildGo]
  | .paren b, rest, stack, acc => by
    simp only [flattenTok, List.cons_append, buildGo]
    rw [show ((flattenToks b).append [FlatTok.rparen]).append rest
        = flattenToks b ++ ([FlatTok.rparen] ++ rest) by simp,
      buildGo_flattenToks b ([FlatTok.rparen] ++ rest) ((Option.none, acc) :: stack) []]
    simp [buildGo]
  | .colon, rest, stack, acc => by simp [flattenTok, buildGo]
  | .ws s, rest, stack, acc => by simp [flattenTok, buildGo]
  | .num s, rest, stack, acc => by simp [flattenTok, buildGo]
  | .str s, rest, stack, acc => by simp [flattenTok, buildGo]
  | .badString s, rest, stack, acc => by simp [flattenTok, buildGo]
  | .delim c, rest, stack, acc => by simp [flattenTok, buildGo]

theorem buildGo_flattenToks : ∀ (ts : List Tok) (rest : List FlatTok)
    (stack : List (Option String × List Tok)) (acc : List Tok),
    buildGo (flattenToks ts ++ rest) stack acc = buildGo rest stack (ts.reverse ++ acc)
  | [], rest, stack, acc => by simp [flattenToks]
  | t :: ts, rest, stack, acc => by
    simp only [flattenToks, List.append_assoc]
    rw [buildGo_flattenTok t (flattenToks ts ++ rest) stack acc,
      buildGo_flattenToks ts rest stack (t :: acc)]
    simp

end

theorem tokenize_render (ts : List Tok) (h : canonToks ts = true) :
    tokenize (renderList ts) = some ts := by
  simp only [tokenize]
  rw [lexAll_render ts h]
  rw [show flattenToks ts = flattenToks ts ++ [] from by simp,
    buildGo_flattenToks ts [] [] []]
  simp [buildGo]

/-! ## Claim theorems -/

/-- C2: the list-minimum-size claim fails on the code.  On the token stream
of `"(a: 1) and"` the parse loop consumes the `and` keyword, records the
fixed list type, then fails to parse an operand; the closure's mutation of
`expected_type` survives the backtracking reset, so `parse` succeeds and
returns an `And` with zero members (fewer than 2), with the dangling
`" and"` left unconsumed. -/
theorem C2_parse_returns_empty_and :
    reparse "(a: 1) and" = some (.and [], [Tok.ws " ", Tok.ident "and"])
  ∧ SupportsCondition.parse
      [Tok.paren [Tok.ident "a", Tok.colon, Tok.ws " ", Tok.num "1"],
        Tok.ws " ", Tok.ident "and"]
      = some (.and [], [Tok.ws " ", Tok.ident "and"]) :=
  ⟨rfl, rfl⟩

/-- C3 counterexample: combining an `And` list with a structurally equal
condition does not leave it unchanged — the receiver is an `And`, the equal
copy is not a member of the (strictly smaller) member list, so it is
appended. -/
theorem C3_and_self_changes_an_and_list :
    ¬ ((SupportsCondition.and [.unknown "(a)", .unknown "(b)"]).and_
        (SupportsCondition.and [.unknown "(a)", .unknown "(b)"])
      = SupportsCondition.and [.unknown "(a)", .unknown "(b)"]) := by
  decide

/-- C3 amended: `x.and(x)` leaves `x` unchanged whenever `x` is not itself
an `And` list, and `x.or(x)` leaves `x` unchanged whenever `x` is not
itself an `Or` list; when `x` is the matching list kind, `x` is instead
appended to its own member list. -/
theorem C3_combine_self_noop_outside_matching_list (x : SupportsCondition) :
    (x.isAnd = false → x.and_ x = x) ∧ (x.isOr = false → x.or_ x = x)
  ∧ (∀ l, x = .and l → x.and_ x = .and (l ++ [x]))
  ∧ (∀ l, x = .or l → x.or_ x = .or (l ++ [x])) := by
  refine ⟨fun h => ?_, fun h => ?_, fun l hl => ?_, fun l hl => ?_⟩
  · cases x <;>
      simp_all [SupportsCondition.and_, SupportsCondition.or_,
        SupportsCondition.isAnd, SupportsCondition.isOr]
  · cases x <;>
      simp_all [SupportsCondition.and_, SupportsCondition.or_,
        SupportsCondition.isAnd, SupportsCondition.isOr]
  · subst hl
    simp [SupportsCondition.and_, and_not_mem_self]
  · subst hl
    simp [SupportsCondition.or_, or_not_mem_self]

/-- C3 witness: the no-op cases applied at concrete conditions. -/
theorem C3_combine_self_noop_witness :
    (SupportsCondition.selector "a").and_ (SupportsCondition.selector "a")
      = SupportsCondition.selector "a"
  ∧ (SupportsCondition.not (.unknown "(x)")).or_ (SupportsCondition.not (.unknown "(x)"))
      = SupportsCondition.not (.unknown "(x)") :=
  ⟨(C3_combine_self_noop_outside_matching_list (SupportsCondition.selector "a")).1 rfl,
    (C3_combine_self_noop_outside_matching_list
      (SupportsCondition.not (.unknown "(x)"))).2.1 rfl⟩

/-- C4: the first operator keyword fixes the list type; a later keyword of
the other type stops the loop without being consumed and without an error
(the state — expected type, accumulated conditions, input — is returned
unchanged).  In particular `"(a: 1) and (b: 2) or (c: 3)"` parses to a
two-member `And` over the two declarations, leaving `" or (c: 3)"`
unconsumed. -/
theorem C4_operator_mixing_termination :
    (∀ (f e : Nat) (first : SupportsCondition) (conds : List SupportsCondition)
       (input rest : List Tok) (s : String) (ft : Nat),
      skipWsToks input = Tok.ident s :: rest →
      (if eqIgnoreCase s "and" then some 1
        else if eqIgnoreCase s "or" then some 2 else Option.none) = some ft →
      ft ≠ e →
      parseLoopF (f + 1) (some e) first conds input = (some e, conds, input))
  ∧ reparse "(a: 1) and (b: 2) or (c: 3)"
      = some (.and [.declaration ⟨"a", VendorPrefix.noneOnly⟩ "1",
                    .declaration ⟨"b", VendorPrefix.noneOnly⟩ "2"],
              [Tok.ws " ", Tok.ident "or", Tok.ws " ",
               Tok.paren [Tok.ident "c", Tok.colon, Tok.ws " ", Tok.num "3"]])
  ∧ renderList [Tok.ws " ", Tok.ident "or", Tok.ws " ",
      Tok.paren [Tok.ident "c", Tok.colon, Tok.ws " ", Tok.num "3"]] = " or (c: 3)" := by
  refine ⟨fun f e first conds input rest s ft h1 h2 h3 => ?_, rfl, rfl⟩
  simp only [parseLoopF, h1, h2]
  have : ¬ (some e = some ft) := by simpa using (Ne.symm h3)
  simp [this]

/-- C4 witness: the mismatch-stop conjunct applied at a concrete state (an
`or` keyword met while the list type is fixed to `and`). -/
theorem C4_operator_mixing_termination_witness :
    parseLoopF 5 (some 1) (SupportsCondition.unknown "(u)") []
      [Tok.ident "or", Tok.paren []]
      = (some 1, [], [Tok.ident "or", Tok.paren []]) :=
  C4_operator_mixing_termination.1 4 1 (SupportsCondition.unknown "(u)") []
    [Tok.ident "or", Tok.paren []] [Tok.paren []] "or" 2 rfl rfl (by decide)

/-- C5: a parenthesis-block or function token whose nested contents are
error-token-free but match no known sub-grammar is not a syntax error:
`parse_in_parens` succeeds with `Unknown`, preserving the source text.  A
function token matches the `selector()` form only when its name is
`selector` (so any other name falls back); a parenthesis block falls back
when the nested condition/declaration attempts fail.  In particular
`"(100px: 100px)"` parses to `Unknown`, not an error. -/
theorem C5_verbatim_fallback_not_error :
    (∀ (input : List Tok) (name : String) (block rest : List Tok),
      skipWsToks input = Tok.func name block :: rest →
      eqIgnoreCase name "selector" = false →
      noErrToks block = true →
      SupportsCondition.parse_in_parens input
        = some (.unknown (renderTok (.func name block)), rest))
  ∧ (∀ (input block rest : List Tok),
      skipWsToks input = Tok.paren block :: rest →
      noErrToks block = true →
      tryBlock (Tok.paren block) = Option.none →
      SupportsCondition.parse_in_parens input
        = some (.unknown (renderTok (.paren block)), rest))
  ∧ reparse "(100px: 100px)" = some (.unknown "(100px: 100px)", []) := by
  refine ⟨fun input name block rest h1 h2 h3 => ?_,
    fun input block rest h1 h2 h3 => ?_, rfl⟩
  · simp only [SupportsCondition.parse_in_parens, h1, parseUnitF, h2, fallbackUnit, h3]
    simp [fallbackUnit, h3]
  · simp only [SupportsCondition.parse_in_parens, h1, parseUnitF]
    rw [show tryBlockF (sizeT (Tok.paren block)) (Tok.paren block)
        = tryBlock (Tok.paren block) from rfl, h3]
    simp [fallbackUnit, h2]

/-- C5 witness: the fallback conjuncts applied at concrete tokens (the
block of `"(100px: 100px)"`, and a `foo(bar)` function token). -/
theorem C5_verbatim_fallback_witness :
    SupportsCondition.parse_in_parens
      [Tok.paren [Tok.num "100px", Tok.colon, Tok.ws " ", Tok.num "100px"]]
      = some (.unknown "(100px: 100px)", [])
  ∧ SupportsCondition.parse_in_parens [Tok.func "foo" [Tok.ident "bar"]]
      = some (.unknown "foo(bar)", []) :=
  ⟨C5_verbatim_fallback_not_error.2.1
      [Tok.paren [Tok.num "100px", Tok.colon, Tok.ws " ", Tok.num "100px"]]
      [Tok.num "100px", Tok.colon, Tok.ws " ", Tok.num "100px"] [] rfl (by decide)
      (by decide),
    C5_verbatim_fallback_not_error.1 [Tok.func "foo" [Tok.ident "bar"]] "foo"
      [Tok.ident "bar"] [] rfl (by decide) (by decide)⟩

/-- C6 counterexample: printing does not always parenthesize the operand of
a `Not` — a self-delimiting operand (here a `Selector`) gets no added
parentheses, contradicting the claim's final clause (which its own
`needs_parens` table already excludes). -/
theorem C6_not_operand_sometimes_unparenthesized :
    SupportsCondition.to_css (.not (.selector "a")) = "not selector(a)"
  ∧ SupportsCondition.to_css (.not (.selector "a")) ≠ "not (selector(a))" :=
  ⟨rfl, by decide⟩

/-- C6 amended: a child is wrapped in parentheses exactly when
`needs_parens` holds — an `And` child iff its parent is not an `And`, an
`Or` child iff its parent is not an `Or`, a `Not` child always,
`Declaration`/`Selector`/`Unknown` children never; hence printing never
adds parentheses around an `And` directly in an `And` (same for `Or` in
`Or`), always parenthesizes an `And` in an `Or` and vice versa, and adds
parentheses around the operand of a `Not` exactly when that operand is
itself a `Not`, `And` or `Or`. -/
theorem C6_parenthesization_rule (c p : SupportsCondition)
    (m rest : List SupportsCondition) :
    (c.needs_parens p = (c.isNot || (c.isAnd && !p.isAnd) || (c.isOr && !p.isOr)))
  ∧ strStartsWith (SupportsCondition.to_css (.and (.and m :: rest)))
      (SupportsCondition.to_css (.and m)) = true
  ∧ strStartsWith (SupportsCondition.to_css (.or (.or m :: rest)))
      (SupportsCondition.to_css (.or m)) = true
  ∧ strStartsWith (SupportsCondition.to_css (.or (.and m :: rest)))
      ("(" ++ SupportsCondition.to_css (.and m) ++ ")") = true
  ∧ strStartsWith (SupportsCondition.to_css (.and (.or m :: rest)))
      ("(" ++ SupportsCondition.to_css (.or m) ++ ")") = true
  ∧ SupportsCondition.to_css (.not c)
      = "not " ++ (if c.isNot || c.isAnd || c.isOr
          then "(" ++ c.to_css ++ ")" else c.to_css) := by
  refine ⟨by cases c <;> cases p <;> rfl, ?_, ?_, ?_, ?_, ?_⟩
  · cases rest <;>
      simp [SupportsCondition.to_css, cssList, wrapParens, SupportsCondition.needs_parens,
        strStartsWith, String.data_append, List.isPrefixOf_iff_prefix]
  · cases rest <;>
      simp [SupportsCondition.to_css, cssList, wrapParens, SupportsCondition.needs_parens,
        strStartsWith, String.data_append, List.isPrefixOf_iff_prefix]
  · cases rest <;>
      simp [SupportsCondition.to_css, cssList, wrapParens, SupportsCondition.needs_parens,
        strStartsWith, String.data_append, List.isPrefixOf_iff_prefix, List.prefix_append]
  · cases rest <;>
      simp [SupportsCondition.to_css, cssList, wrapParens, SupportsCondition.needs_parens,
        strStartsWith, String.data_append, List.isPrefixOf_iff_prefix, List.prefix_append]
  · cases c <;> simp [SupportsCondition.to_css, wrapParens, SupportsCondition.needs_parens,
      SupportsCondition.isNot, SupportsCondition.isAnd, SupportsCondition.isOr]

/-- C7: the combinator contract — appending to a matching list kind only
when no structurally equal member exists, otherwise replacing a (distinct)
receiver by the two-element list `[old self, b]` — and its consequence:
combining duplicate-free trees never creates a list with two structurally
equal members. -/
theorem C7_combinator_contract_and_dedup :
    (∀ (l : List SupportsCondition) (b : SupportsCondition),
      (SupportsCondition.and l).and_ b
        = if b ∈ l then .and l else .and (l ++ [b]))
  ∧ (∀ x b : SupportsCondition, x.isAnd = false → x ≠ b → x.and_ b = .and [x, b])
  ∧ (∀ (l : List SupportsCondition) (b : SupportsCondition),
      (SupportsCondition.or l).or_ b
        = if b ∈ l then .or l else .or (l ++ [b]))
  ∧ (∀ x b : SupportsCondition, x.isOr = false → x ≠ b → x.or_ b = .or [x, b])
  ∧ (∀ x b : SupportsCondition, dupFreeSC x = true → dupFreeSC b = true →
      dupFreeSC (x.and_ b) = true ∧ dupFreeSC (x.or_ b) = true) := by
  refine ⟨fun l b => rfl, fun x b hx hne => ?_, fun l b => rfl,
    fun x b hx hne => ?_, dupFree_combine⟩
  · cases x <;> simp_all [SupportsCondition.and_, SupportsCondition.isAnd]
  · cases x <;> simp_all [SupportsCondition.or_, SupportsCondition.isOr]

/-- C7 witness: the contract and the duplicate-freedom preservation applied
at concrete conditions. -/
theorem C7_combinator_contract_witness :
    (SupportsCondition.selector "a").and_ (SupportsCondition.unknown "(b)")
      = SupportsCondition.and [.selector "a", .unknown "(b)"]
  ∧ dupFreeSC ((SupportsCondition.and [.selector "a", .unknown "(b)"]).and_
      (SupportsCondition.unknown "(b)")) = true :=
  ⟨C7_combinator_contract_and_dedup.2.1 (SupportsCondition.selector "a")
      (SupportsCondition.unknown "(b)") rfl (by decide),
    (C7_combinator_contract_and_dedup.2.2.2.2
      (SupportsCondition.and [.selector "a", .unknown "(b)"])
      (SupportsCondition.unknown "(b)") (by decide) (by decide)).1⟩

/-- C8: the prefix-expansion pass never changes anything but prefix sets —
erasing all prefix sets commutes with the pass (so every node keeps its
variant, `And`/`Or` keep their member count, `Selector`/`Unknown` and every
declaration's name and value are untouched) — and a declaration whose
prefix set is non-empty and lacks the `no prefix` marker is left exactly as
it was. -/
theorem C8_set_prefixes_frame (targets : Browsers) :
    (∀ c : SupportsCondition,
      stripPrefixes (c.set_prefixes_for_targets targets) = stripPrefixes c)
  ∧ (∀ (p : PropertyId) (v : String),
      (p.prefixes.is_empty || p.prefixes.none) = false →
      (SupportsCondition.declaration p v).set_prefixes_for_targets targets
        = .declaration p v)
  ∧ (∀ s, (SupportsCondition.selector s).set_prefixes_for_targets targets
      = .selector s)
  ∧ (∀ s, (SupportsCondition.unknown s).set_prefixes_for_targets targets
      = .unknown s)
  ∧ (∀ c, (SupportsCondition.not c).set_prefixes_for_targets targets
      = .not (c.set_prefixes_for_targets targets))
  ∧ (∀ l, (SupportsCondition.and l).set_prefixes_for_targets targets
      = .and (setPrefixesList l targets)
        ∧ (setPrefixesList l targets).length = l.length) := by
  refine ⟨fun c => strip_set c targets, fun p v h => ?_, fun s => rfl, fun s => rfl,
    fun c => rfl, fun l => ⟨rfl, setPrefixesList_length l targets⟩⟩
  simp [SupportsCondition.set_prefixes_for_targets, h]

/-- C8 witness: the frame applied at a concrete tree and targets, and the
untouched case at a declaration with a pure vendor prefix. -/
theorem C8_set_prefixes_frame_witness :
    stripPrefixes ((SupportsCondition.not
        (.declaration ⟨"flex", VendorPrefix.noneOnly⟩ "1")).set_prefixes_for_targets
        (fun _ => some { webkit := true, moz := true }))
      = stripPrefixes (.not (.declaration ⟨"flex", VendorPrefix.noneOnly⟩ "1"))
  ∧ (SupportsCondition.declaration ⟨"flex", { webkit := true }⟩
        "1").set_prefixes_for_targets (fun _ => some { moz := true })
      = .declaration ⟨"flex", { webkit := true }⟩ "1" :=
  ⟨(C8_set_prefixes_frame _).1 _,
    (C8_set_prefixes_frame _).2.1 ⟨"flex", { webkit := true }⟩ "1" (by decide)⟩

/-- C9 counterexample: a declaration with a single vendor prefix does get
the extra wrapping — the wrap condition is `prefix set ≠ {no prefix}`, not
`more than one clause` — so `-webkit-flex: 1` prints as
`"((-webkit-flex: 1))"`, not as a single parenthesized clause. -/
theorem C9_single_vendor_prefix_is_wrapped :
    SupportsCondition.to_css (.declaration ⟨"flex", { webkit := true }⟩ "1")
      = "((-webkit-flex: 1))"
  ∧ SupportsCondition.to_css (.declaration ⟨"flex", { webkit := true }⟩ "1")
      ≠ "(-webkit-flex: 1)" :=
  ⟨rfl, by decide⟩

/-- C9 amended: printing a declaration whose resolved prefix set is not the
`no prefix` marker alone emits an outer `"("`, an extra inner `"("`, one
prefixed clause per prefix in canonical order joined by `") or ("`, then
the closing parentheses — two prefixes print as
`"((-webkit-name: value) or (-moz-name: value))"`, a single vendor prefix
still prints with the extra wrapping as `"((-webkit-name: value))"`, and
only a declaration whose prefix set is the `no prefix` marker alone prints
as a single parenthesized clause with no extra wrapping. -/
theorem C9_multi_prefix_declaration_printing (name value : String) :
    SupportsCondition.to_css
        (.declaration ⟨name, { webkit := true, moz := true }⟩ value)
      = "((-webkit-" ++ name ++ ": " ++ value ++ ") or (-moz-"
          ++ name ++ ": " ++ value ++ "))"
  ∧ SupportsCondition.to_css (.declaration ⟨name, { webkit := true }⟩ value)
      = "((-webkit-" ++ name ++ ": " ++ value ++ "))"
  ∧ SupportsCondition.to_css (.declaration ⟨name, VendorPrefix.noneOnly⟩ value)
      = "(" ++ name ++ ": " ++ value ++ ")" := by
  refine ⟨?_, ?_, ?_⟩ <;>
    · simp [SupportsCondition.to_css, VendorPrefix.or_none, VendorPrefix.is_empty,
        VendorPrefix.noneOnly, VendorPrefix.flags, joinSep, VendorPrefix.Flag.to_css]
      ext
      simp [String.data_append]

/-- C10: when `parse_in_parens` falls back to `Unknown`, the stored text is
the whole delimited span — for a parenthesis block both enclosing
parentheses, for a function token the function name, the opening
parenthesis, the nested text and the closing parenthesis.  In particular
parsing `"(100px: 100px)"` stores `"(100px: 100px)"`. -/
theorem C10_unknown_full_span :
    (∀ (input block rest : List Tok) (s : String),
      skipWsToks input = Tok.paren block :: rest →
      tryBlock (Tok.paren block) = Option.none →
      SupportsCondition.parse_in_parens input = some (.unknown s, rest) →
      s = "(" ++ renderList block ++ ")")
  ∧ (∀ (input : List Tok) (name : String) (block rest : List Tok) (s : String),
      skipWsToks input = Tok.func name block :: rest →
      SupportsCondition.parse_in_parens input = some (.unknown s, rest) →
      s = name ++ "(" ++ renderList block ++ ")")
  ∧ reparse "(100px: 100px)" = some (.unknown "(100px: 100px)", []) := by
  refine ⟨fun input block rest s h1 h2 h3 => ?_,
    fun input name block rest s h1 h3 => ?_, rfl⟩
  · simp only [SupportsCondition.parse_in_parens, h1, parseUnitF] at h3
    rw [show tryBlockF (sizeT (Tok.paren block)) (Tok.paren block)
        = tryBlock (Tok.paren block) from rfl, h2] at h3
    by_cases hn : noErrToks block = true
    · simp [fallbackUnit, hn, renderTok] at h3
      exact h3.symm
    · simp [fallbackUnit, hn] at h3
  · simp only [SupportsCondition.parse_in_parens, h1, parseUnitF] at h3
    by_cases hsel : eqIgnoreCase name "selector" = true
    · by_cases hn : noErrToks block = true
      · simp [hsel, hn] at h3
      · simp [hsel, hn, fallbackUnit] at h3
    · rw [Bool.not_eq_true] at hsel
      by_cases hn : noErrToks block = true
      · simp [hsel, hn, fallbackUnit, renderTok] at h3
        exact h3.symm
      · simp [hsel, hn, fallbackUnit] at h3

/-- C10 witness: the full-span conjuncts applied at the concrete block of
`"(100px: 100px)"` and at a `selector`-named function token whose nested
text holds an error token. -/
theorem C10_unknown_full_span_witness :
    ("(100px: 100px)" : String)
      = "(" ++ renderList [Tok.num "100px", Tok.colon, Tok.ws " ", Tok.num "100px"] ++ ")"
  ∧ ∀ s, SupportsCondition.parse_in_parens
        [Tok.paren [Tok.num "100px", Tok.colon, Tok.ws " ", Tok.num "100px"]]
        = some (.unknown s, []) → s = "(100px: 100px)" :=
  ⟨rfl, fun s h =>
    (C10_unknown_full_span.1
      [Tok.paren [Tok.num "100px", Tok.colon, Tok.ws " ", Tok.num "100px"]]
      [Tok.num "100px", Tok.colon, Tok.ws " ", Tok.num "100px"] [] s rfl (by decide)
      h).trans rfl⟩

end Supports

namespace Supports

theorem renderList_append (a b : List Tok) :
    renderList (a ++ b) = renderList a ++ renderList b := by
  induction a with
  | nil => simp [renderList]
  | cons t ts ih => simp [renderList, ih, String.append_assoc]

theorem wfValue_elim (v : String) (h : wfValue v = true) :
    tokenize v = some (valToks v) ∧ canonToks (valToks v) = true
      ∧ renderList (valToks v) = v ∧ noErrToks (valToks v) = true := by
  simp only [wfValue] at h
  cases htok : tokenize v with
  | none => rw [htok] at h; simp at h
  | some vt =>
    rw [htok] at h
    simp only [Bool.and_eq_true, beq_iff_eq] at h
    have hv : valToks v = vt := by simp [valToks, htok]
    rw [hv]
    exact ⟨rfl, h.1.1, h.1.2, h.2⟩

theorem wfDeclPid_elim (p : PropertyId) (h : wfDeclPid p = true) :
    ∃ k, (p.prefixes.or_none).flags = [k]
      ∧ isIdentStr (VendorPrefix.Flag.to_css k ++ p.name) = true
      ∧ PropertyId.parse_name (VendorPrefix.Flag.to_css k ++ p.name) = p := by
  simp only [wfDeclPid] at h
  split at h
  · next k heq =>
    simp only [Bool.and_eq_true, beq_iff_eq] at h
    exact ⟨k, heq, h.1, h.2⟩
  · simp at h

theorem wfUnknown_elim (s : String) (h : wfSC (.unknown s) = true) :
    (∃ name block, tokenize s = some [Tok.func name block]
      ∧ canonToks [Tok.func name block] = true
      ∧ renderList [Tok.func name block] = s
      ∧ noErrToks block = true ∧ eqIgnoreCase name "selector" = false)
  ∨ (∃ block, tokenize s = some [Tok.paren block]
      ∧ canonToks [Tok.paren block] = true
      ∧ renderList [Tok.paren block] = s
      ∧ noErrToks block = true ∧ tryBlock (Tok.paren block) = Option.none) := by
  simp only [wfSC] at h
  split at h
  · next name block heq =>
    simp only [Bool.and_eq_true, beq_iff_eq, Bool.not_eq_true'] at h
    exact Or.inl ⟨name, block, heq, h.1.1.1, h.1.1.2, h.1.2, h.2⟩
  · next block heq =>
    simp only [Bool.and_eq_true, beq_iff_eq, decide_eq_true_eq] at h
    exact Or.inr ⟨block, heq, h.1.1.1, h.1.1.2, h.1.2, h.2⟩
  · simp at h

theorem flags_eq_none_singleton (p : VendorPrefix)
    (h : p.flags = [VendorPrefix.Flag.none]) : p = VendorPrefix.noneOnly := by
  obtain ⟨a, b, c, d, e⟩ := p
  cases a <;> cases b <;> cases c <;> cases d <;> cases e <;>
    simp_all [VendorPrefix.flags, VendorPrefix.noneOnly]

theorem flags_vendor_ne_noneOnly (p : VendorPrefix) (k : VendorPrefix.Flag)
    (h : p.flags = [k]) (hk : k ≠ VendorPrefix.Flag.none) :
    ¬ (p = VendorPrefix.noneOnly) := by
  intro he
  subst he
  rw [show VendorPrefix.noneOnly.flags = [VendorPrefix.Flag.none] from rfl] at h
  exact hk (List.singleton_injective h.symm)

end Supports

namespace Supports

theorem append_colon_space (X : String) : X ++ ":" ++ " " = X ++ ": " := by
  rw [String.append_assoc]; rfl

theorem append_rp_rp (X : String) : X ++ ")" ++ ")" = X ++ "))" := by
  rw [String.append_assoc]; rfl

mutual

theorem render_printToks : ∀ C : SupportsCondition, wfSC C = true →
    renderList (printToks C) = C.to_css
  | .not c, h => by
    simp only [wfSC] at h
    simp only [printToks, SupportsCondition.to_css, wrapParens]
    by_cases hb : c.needs_parens (.not c) = true
    · simp [hb, renderList, renderTok, render_printToks c h, ← String.append_assoc]
    · rw [Bool.not_eq_true] at hb
      simp [hb, renderList, renderTok, render_printToks c h, ← String.append_assoc]
  | .and l, h => by
    simp only [wfSC, Bool.and_eq_true] at h
    simp only [printToks, SupportsCondition.to_css]
    rw [render_printItems l "and" (.and l) h.2]
    rfl
  | .or l, h => by
    simp only [wfSC, Bool.and_eq_true] at h
    simp only [printToks, SupportsCondition.to_css]
    rw [render_printItems l "or" (.or l) h.2]
    rfl
  | .declaration p v, h => by
    simp only [wfSC, Bool.and_eq_true] at h
    obtain ⟨⟨hpid, hval⟩, hws⟩ := h
    obtain ⟨k, hk, hid, hparse⟩ := wfDeclPid_elim p hpid
    obtain ⟨_, _, hrv, _⟩ := wfValue_elim v hval
    cases k with
    | none =>
      have hpfx : p.prefixes.or_none = VendorPrefix.noneOnly :=
        flags_eq_none_singleton _ hk
      simp only [printToks, SupportsCondition.to_css, hk, hpfx]
      simp [VendorPrefix.flags, VendorPrefix.noneOnly, joinSep,
        VendorPrefix.Flag.to_css, renderList, renderTok, renderList_append, hrv,
        ← String.append_assoc, append_colon_space, append_rp_rp]
    | webkit =>
      have hne : ¬ (p.prefixes.or_none = VendorPrefix.noneOnly) :=
        flags_vendor_ne_noneOnly _ _ hk (by simp)
      simp only [printToks, SupportsCondition.to_css, hk]
      simp [hne, joinSep, VendorPrefix.Flag.to_css, renderList, renderTok,
        renderList_append, hrv, ← String.append_assoc, append_colon_space, append_rp_rp]
    | moz =>
      have hne : ¬ (p.prefixes.or_none = VendorPrefix.noneOnly) :=
        flags_vendor_ne_noneOnly _ _ hk (by simp)
      simp only [printToks, SupportsCondition.to_css, hk]
      simp [hne, joinSep, VendorPrefix.Flag.to_css, renderList, renderTok,
        renderList_append, hrv, ← String.append_assoc, append_colon_space, append_rp_rp]
    | ms =>
      have hne : ¬ (p.prefixes.or_none = VendorPrefix.noneOnly) :=
        flags_vendor_ne_noneOnly _ _ hk (by simp)
      simp only [printToks, SupportsCondition.to_css, hk]
      simp [hne, joinSep, VendorPrefix.Flag.to_css, renderList, renderTok,
        renderList_append, hrv, ← String.append_assoc, append_colon_space, append_rp_rp]
    | o =>
      have hne : ¬ (p.prefixes.or_none = VendorPrefix.noneOnly) :=
        flags_vendor_ne_noneOnly _ _ hk (by simp)
      simp only [printToks, SupportsCondition.to_css, hk]
      simp [hne, joinSep, VendorPrefix.Flag.to_css, renderList, renderTok,
        renderList_append, hrv, ← String.append_assoc, append_colon_space, append_rp_rp]
  | .selector s, h => by
    obtain ⟨_, _, hrv, _⟩ := wfValue_elim s h
    simp [printToks, renderList, renderTok, hrv, ← String.append_assoc,
      SupportsCondition.to_css]
  | .unknown s, h => by
    rcases wfUnknown_elim s h with ⟨name, block, htok, _, hrv, _, _⟩
      | ⟨block, htok, _, hrv, _, _⟩ <;>
      simp [printToks, valToks, htok, hrv, SupportsCondition.to_css]

theorem render_printItems : ∀ (l : List SupportsCondition) (kw : String)
    (parent : SupportsCondition), wfL l = true →
    renderList (printItems kw parent l) = cssList (" " ++ kw ++ " ") parent l
  | [], _, _, _ => rfl
  | [c], kw, parent, h => by
    simp only [wfL, Bool.and_eq_true] at h
    simp only [printItems, cssList, wrapParens]
    by_cases hb : c.needs_parens parent = true
    · simp [hb, renderList, renderTok, render_printToks c h.1, ← String.append_assoc]
    · rw [Bool.not_eq_true] at hb
      simp [hb, render_printToks c h.1]
  | c :: c2 :: cs, kw, parent, h => by
    simp only [wfL, Bool.and_eq_true] at h
    simp only [printItems, cssList]
    rw [renderList_append]
    have htail : renderList (Tok.ws " " :: Tok.ident kw :: Tok.ws " "
        :: printItems kw parent (c2 :: cs))
        = (" " ++ kw ++ " ") ++ cssList (" " ++ kw ++ " ") parent (c2 :: cs) := by
      simp only [renderList, renderTok]
      rw [render_printItems (c2 :: cs) kw parent (by simp [wfL, h.2.1, h.2.2])]
      simp [← String.append_assoc]
    rw [htail]
    by_cases hb : c.needs_parens parent = true
    · simp [hb, renderList, renderTok, wrapParens, render_printToks c h.1,
        ← String.append_assoc]
    · rw [Bool.not_eq_true] at hb
      simp [hb, wrapParens, render_printToks c h.1, ← String.append_assoc]

end

end Supports

namespace Supports

/-- Whether a token is a whitespace token. -/
def isWsTok : Tok → Bool
  | .ws _ => true
  | _ => false

/-- Whether a token is a block token (function or parenthesis block). -/
def isBlockTok : Tok → Bool
  | .paren _ => true
  | .func _ _ => true
  | _ => false

theorem canonToks_cons (x : Tok) (xs : List Tok) (hx : canonTok x = true)
    (hsep : ∀ y ys, xs = y :: ys → sepTok x y = true) (hxs : canonToks xs = true) :
    canonToks (x :: xs) = true := by
  cases xs with
  | nil => simpa [canonToks] using hx
  | cons y ys =>
    rw [show canonToks (x :: y :: ys) = ((canonTok x && sepTok x y) && canonToks (y :: ys))
      from rfl]
    simp [hx, hsep y ys rfl, hxs]

theorem canonToks_head (t : Tok) (ts : List Tok) (h : canonToks (t :: ts) = true) :
    canonTok t = true ∧ canonToks ts = true := by
  cases ts with
  | nil => simpa [canonToks] using h
  | cons y ys =>
    rw [show canonToks (t :: y :: ys) = ((canonTok t && sepTok t y) && canonToks (y :: ys))
      from rfl] at h
    simp only [Bool.and_eq_true] at h
    exact ⟨h.1.1, h.2⟩

theorem sepTok_closed (t u : Tok) (h : pendK t = .closed) : sepTok t u = true := by
  simp [sepTok, h, glues]

theorem headCh_not_ws (t : Tok) (hc : canonTok t = true) (hw : isWsTok t = false) :
    wsChar (headCh t) = false := by
  cases t with
  | ident s =>
    simp only [canonTok, isIdentStr] at hc
    split at hc
    · simp at hc
    · next c cs heq =>
      simp only [Bool.and_eq_true] at hc
      rw [headCh, heq]
      exact identStart_not_ws c hc.1
  | func n b =>
    simp only [canonTok, Bool.and_eq_true] at hc
    have h2 := hc.1
    simp only [isIdentStr] at h2
    split at h2
    · simp at h2
    · next c cs heq =>
      simp only [Bool.and_eq_true] at h2
      rw [headCh, heq]
      exact identStart_not_ws c h2.1
  | num s =>
    simp only [canonTok, isNumStr] at hc
    split at hc
    · simp at hc
    · next c cs heq =>
      simp only [Bool.and_eq_true] at hc
      rw [headCh, heq]
      exact digit_not_ws c hc.1
  | ws s => simp [isWsTok] at hw
  | paren b => rfl
  | colon => rfl
  | str s => rfl
  | badString s => rfl
  | delim c =>
    simp only [canonTok, Bool.not_eq_true', Bool.or_eq_false_iff] at hc
    exact hc.1.1.1.1.2

theorem sep_ident_ws (s : String) : sepTok (.ident s) (.ws " ") = true := rfl

theorem sep_ident_colon (s : String) : sepTok (.ident s) .colon = true := rfl

theorem sep_ws_tok (w : String) (u : Tok) (hc : canonTok u = true)
    (hw : isWsTok u = false) : sepTok (.ws w) u = true := by
  simp [sepTok, pendK, glues, headCh_not_ws u hc hw]

theorem isIdentStr_head_not_ws (kw : String) (h : isIdentStr kw = true) :
    wsChar (kw.data.headD 'x') = false := by
  simp only [isIdentStr] at h
  split at h
  · simp at h
  · next c cs heq =>
    simp only [Bool.and_eq_true] at h
    rw [heq]
    exact identStart_not_ws c h.1

end Supports

namespace Supports

theorem headNotWs_cons (t : Tok) (ts : List Tok) (h : headNotWs (t :: ts) = true) :
    isWsTok t = false := by
  cases t <;> simp_all [headNotWs, isWsTok]

theorem canon_declInner (pname v : String) (hp : isIdentStr pname = true)
    (hv : wfValue v = true) (hws : headNotWs (valToks v) = true) :
    canonToks (Tok.ident pname :: Tok.colon :: Tok.ws " " :: valToks v) = true := by
  obtain ⟨_, hcv, _, _⟩ := wfValue_elim v hv
  apply canonToks_cons _ _ (by simpa [canonTok] using hp)
  · intro y ys he
    cases he
    exact sep_ident_colon pname
  · apply canonToks_cons Tok.colon _ rfl
    · intro y ys he
      cases he
      exact sepTok_closed _ _ rfl
    · apply canonToks_cons _ _ (by decide)
      · intro y ys he
        have h1 := (canonToks_head y ys (he ▸ hcv)).1
        have h2 : isWsTok y = false := headNotWs_cons y ys (he ▸ hws)
        exact sep_ws_tok " " y h1 h2
      · exact hcv

mutual

theorem canonPrint : ∀ C : SupportsCondition, wfSC C = true → noFlat C = true →
    canonToks (printToks C) = true
    ∧ ((C.isNot || C.isAnd || C.isOr) = false →
        ∃ t, printToks C = [t] ∧ canonTok t = true ∧ pendK t = .closed
          ∧ wsChar (headCh t) = false ∧ isBlockTok t = true)
  | .not c, hwf, hnf => by
    simp only [wfSC] at hwf
    simp only [noFlat] at hnf
    constructor
    · simp only [printToks]
      apply canonToks_cons _ _ (by decide)
      · intro y ys he
        by_cases hb : c.needs_parens (.not c) = true <;>
          simp only [hb, Bool.not_eq_true, if_true, if_false] at he <;>
          cases he <;> exact sep_ident_ws "not"
      · by_cases hb : c.needs_parens (.not c) = true
        · simp only [hb, if_true]
          apply canonToks_cons _ _ (by decide)
          · intro y ys he
            cases he
            simp [sepTok, pendK, glues, headCh, wsChar]
          · simpa [canonToks, canonTok] using (canonPrint c hwf hnf).1
        · rw [Bool.not_eq_true] at hb
          simp only [hb, if_false]
          have hleaf : (c.isNot || c.isAnd || c.isOr) = false := by
            cases c <;> simp_all [SupportsCondition.needs_parens,
              SupportsCondition.isNot, SupportsCondition.isAnd, SupportsCondition.isOr]
          obtain ⟨t, heq, hct, hpd, hhw, hbt⟩ := (canonPrint c hwf hnf).2 hleaf
          rw [heq]
          apply canonToks_cons _ _ (by decide)
          · intro y ys he
            cases he
            simp [sepTok, pendK, glues, hhw]
          · simpa [canonToks] using hct
    · intro habs
      simp [SupportsCondition.isNot] at habs
  | .and l, hwf, hnf => by
    simp only [wfSC, Bool.and_eq_true] at hwf
    simp only [noFlat, Bool.and_eq_true] at hnf
    constructor
    · simp only [printToks]
      refine (canonItems l "and" (.and l) hwf.2 hnf.2 (by decide) ?_).1
      intro c hc hnp
      cases c with
      | not c2 => simp [SupportsCondition.needs_parens] at hnp
      | and l2 =>
        have := List.all_eq_true.mp hnf.1 (SupportsCondition.and l2) hc
        simp [SupportsCondition.isAnd] at this
      | or l2 => simp [SupportsCondition.needs_parens] at hnp
      | declaration p v => rfl
      | selector s => rfl
      | unknown s => rfl
    · intro habs
      simp [SupportsCondition.isAnd] at habs
  | .or l, hwf, hnf => by
    simp only [wfSC, Bool.and_eq_true] at hwf
    simp only [noFlat, Bool.and_eq_true] at hnf
    constructor
    · simp only [printToks]
      refine (canonItems l "or" (.or l) hwf.2 hnf.2 (by decide) ?_).1
      intro c hc hnp
      cases c with
      | not c2 => simp [SupportsCondition.needs_parens] at hnp
      | or l2 =>
        have := List.all_eq_true.mp hnf.1 (SupportsCondition.or l2) hc
        simp [SupportsCondition.isOr] at this
      | and l2 => simp [SupportsCondition.needs_parens] at hnp
      | declaration p v => rfl
      | selector s => rfl
      | unknown s => rfl
    · intro habs
      simp [SupportsCondition.isOr] at habs
  | .declaration p v, hwf, _ => by
    simp only [wfSC, Bool.and_eq_true] at hwf
    obtain ⟨⟨hpid, hval⟩, hws⟩ := hwf
    obtain ⟨k, hk, hid, _⟩ := wfDeclPid_elim p hpid
    have hmain : ∃ t, printToks (.declaration p v) = [t] ∧ canonTok t = true
        ∧ pendK t = .closed ∧ wsChar (headCh t) = false ∧ isBlockTok t = true := by
      cases k with
      | none =>
        refine ⟨Tok.paren (Tok.ident p.name :: Tok.colon :: Tok.ws " " :: valToks v),
          by simp only [printToks, hk], ?_, rfl, rfl, rfl⟩
        simpa [canonTok] using canon_declInner p.name v (by simpa using hid) hval hws
      | webkit =>
        refine ⟨Tok.paren [Tok.paren (Tok.ident (VendorPrefix.Flag.webkit.to_css ++ p.name)
            :: Tok.colon :: Tok.ws " " :: valToks v)],
          by simp only [printToks, hk], ?_, rfl, rfl, rfl⟩
        simpa [canonTok, canonToks] using
          canon_declInner _ v hid hval hws
      | moz =>
        refine ⟨Tok.paren [Tok.paren (Tok.ident (VendorPrefix.Flag.moz.to_css ++ p.name)
            :: Tok.colon :: Tok.ws " " :: valToks v)],
          by simp only [printToks, hk], ?_, rfl, rfl, rfl⟩
        simpa [canonTok, canonToks] using
          canon_declInner _ v hid hval hws
      | ms =>
        refine ⟨Tok.paren [Tok.paren (Tok.ident (VendorPrefix.Flag.ms.to_css ++ p.name)
            :: Tok.colon :: Tok.ws " " :: valToks v)],
          by simp only [printToks, hk], ?_, rfl, rfl, rfl⟩
        simpa [canonTok, canonToks] using
          canon_declInner _ v hid hval hws
      | o =>
        refine ⟨Tok.paren [Tok.paren (Tok.ident (VendorPrefix.Flag.o.to_css ++ p.name)
            :: Tok.colon :: Tok.ws " " :: valToks v)],
          by simp only [printToks, hk], ?_, rfl, rfl, rfl⟩
        simpa [canonTok, canonToks] using
          canon_declInner _ v hid hval hws
    obtain ⟨t, heq, hct, hpd, hhw, hbt⟩ := hmain
    exact ⟨by rw [heq]; simpa [canonToks] using hct,
      fun _ => ⟨t, heq, hct, hpd, hhw, hbt⟩⟩
  | .selector s, hwf, _ => by
    obtain ⟨_, hcv, _, _⟩ := wfValue_elim s hwf
    have hsel : isIdentStr "selector" = true := by decide
    have hct : canonTok (Tok.func "selector" (valToks s)) = true := by
      simp [canonTok, hcv, hsel]
    exact ⟨by simpa [printToks, canonToks] using hct,
      fun _ => ⟨_, rfl, hct, rfl, rfl, rfl⟩⟩
  | .unknown s, hwf, _ => by
    rcases wfUnknown_elim s hwf with ⟨name, block, htok, hcv, _, _, _⟩
      | ⟨block, htok, hcv, _, _, _⟩
    · have heq : printToks (.unknown s) = [Tok.func name block] := by
        simp [printToks, valToks, htok]
      have hct := (canonToks_head _ _ hcv).1
      refine ⟨by rw [heq]; exact hcv, fun _ => ⟨_, heq, hct, rfl, ?_, rfl⟩⟩
      exact headCh_not_ws _ hct rfl
    · have heq : printToks (.unknown s) = [Tok.paren block] := by
        simp [printToks, valToks, htok]
      have hct := (canonToks_head _ _ hcv).1
      exact ⟨by rw [heq]; exact hcv, fun _ => ⟨_, heq, hct, rfl, rfl, rfl⟩⟩

theorem canonItems : ∀ (l : List SupportsCondition) (kw : String)
    (parent : SupportsCondition), wfL l = true → noFlatL l = true →
    isIdentStr kw = true →
    (∀ c, c ∈ l → c.needs_parens parent = false →
      (c.isNot || c.isAnd || c.isOr) = false) →
    canonToks (printItems kw parent l) = true
    ∧ (∀ c cs, l = c :: cs → ∃ t tail, printItems kw parent l = t :: tail
        ∧ canonTok t = true ∧ pendK t = .closed ∧ wsChar (headCh t) = false)
  | [], kw, parent, _, _, _, _ => ⟨rfl, fun c cs h => by cases h⟩
  | [c], kw, parent, hwf, hnf, hkw, hmem => by
    simp only [wfL, Bool.and_eq_true] at hwf
    simp only [noFlatL, Bool.and_eq_true] at hnf
    have hunit : ∃ t, (if c.needs_parens parent = true
          then [Tok.paren (printToks c)] else printToks c) = [t]
        ∧ canonTok t = true ∧ pendK t = .closed ∧ wsChar (headCh t) = false := by
      by_cases hb : c.needs_parens parent = true
      · exact ⟨Tok.paren (printToks c), by rw [hb]; simp, by
          simpa [canonTok] using (canonPrint c hwf.1 hnf.1).1, rfl, rfl⟩
      · rw [Bool.not_eq_true] at hb
        obtain ⟨t, heq, hct, hpd, hhw, _⟩ :=
          (canonPrint c hwf.1 hnf.1).2 (hmem c (List.mem_singleton_self c) hb)
        exact ⟨t, by rw [hb]; simpa using heq, hct, hpd, hhw⟩
    obtain ⟨t, heq, hct, hpd, hhw⟩ := hunit
    have heq2 : printItems kw parent [c] = [t] := by
      simpa [printItems] using heq
    exact ⟨by rw [heq2]; simpa [canonToks] using hct,
      fun c2 cs2 h2 => ⟨t, [], heq2, hct, hpd, hhw⟩⟩
  | c :: c2 :: cs, kw, parent, hwf, hnf, hkw, hmem => by
    simp only [wfL, Bool.and_eq_true] at hwf
    simp only [noFlatL, Bool.and_eq_true] at hnf
    have hwf2 : wfL (c2 :: cs) = true := by simp [wfL, hwf.2.1, hwf.2.2]
    have hnf2 : noFlatL (c2 :: cs) = true := by simp [noFlatL, hnf.2.1, hnf.2.2]
    have hmem2 : ∀ x, x ∈ (c2 :: cs) → x.needs_parens parent = false →
        (x.isNot || x.isAnd || x.isOr) = false :=
      fun x hx => hmem x (List.mem_cons_of_mem c hx)
    have IH := canonItems (c2 :: cs) kw parent hwf2 hnf2 hkw hmem2
    obtain ⟨t2, tail2, heqt2, hct2, hpd2, hhw2⟩ := IH.2 c2 cs rfl
    have hunit : ∃ t, (if c.needs_parens parent = true
          then [Tok.paren (printToks c)] else printToks c) = [t]
        ∧ canonTok t = true ∧ pendK t = .closed ∧ wsChar (headCh t) = false := by
      by_cases hb : c.needs_parens parent = true
      · exact ⟨Tok.paren (printToks c), by rw [hb]; simp, by
          simpa [canonTok] using (canonPrint c hwf.1 hnf.1).1, rfl, rfl⟩
      · rw [Bool.not_eq_true] at hb
        obtain ⟨t, heq, hct, hpd, hhw, _⟩ :=
          (canonPrint c hwf.1 hnf.1).2 (hmem c (List.mem_cons_self c _) hb)
        exact ⟨t, by rw [hb]; simpa using heq, hct, hpd, hhw⟩
    obtain ⟨t, hequ, hct, hpd, hhw⟩ := hunit
    have heqall : printItems kw parent (c :: c2 :: cs)
        = t :: Tok.ws " " :: Tok.ident kw :: Tok.ws " "
          :: printItems kw parent (c2 :: cs) := by
      rw [show printItems kw parent (c :: c2 :: cs)
          = (if c.needs_parens parent = true then [Tok.paren (printToks c)]
              else printToks c)
            ++ Tok.ws " " :: Tok.ident kw :: Tok.ws " "
              :: printItems kw parent (c2 :: cs) from rfl, hequ]
      rfl
    refine ⟨?_, fun c3 cs3 h3 => ⟨t, _, heqall, hct, hpd, hhw⟩⟩
    rw [heqall]
    apply canonToks_cons _ _ hct
    · intro y ys he
      cases he
      exact sepTok_closed _ _ hpd
    apply canonToks_cons _ _ (by decide)
    · intro y ys he
      cases he
      simp only [sepTok, pendK, glues, headCh, Bool.not_eq_true']
      simpa using isIdentStr_head_not_ws kw hkw
    apply canonToks_cons _ _ (by simpa [canonTok] using hkw)
    · intro y ys he
      cases he
      exact sep_ident_ws kw
    apply canonToks_cons _ _ (by decide)
    · intro y ys he
      rw [heqt2] at he
      cases he
      simp [sepTok, pendK, glues, hhw2]
    exact IH.1

end

theorem tokenize_toCss (C : SupportsCondition) (hwf : wfSC C = true)
    (hnf : noFlat C = true) : tokenize C.to_css = some (printToks C) := by
  rw [← render_printToks C hwf]
  exact tokenize_render _ (canonPrint C hwf hnf).1

end Supports

namespace Supports

theorem sizeT_pos (t : Tok) : 1 ≤ sizeT t := by
  cases t <;> simp [sizeT] <;> omega

theorem sizeL_cons (t : Tok) (ts : List Tok) : sizeL (t :: ts) = sizeT t + sizeL ts := rfl

theorem sizeL_skipWs_le (l : List Tok) : sizeL (skipWsToks l) ≤ sizeL l := by
  induction l with
  | nil => simp [skipWsToks]
  | cons t ts ih =>
    cases t with
    | ws s =>
      rw [show skipWsToks (Tok.ws s :: ts) = skipWsToks ts from rfl, sizeL_cons]
      have : 1 ≤ sizeT (Tok.ws s) := sizeT_pos _
      omega
    | ident s => rw [show skipWsToks (Tok.ident s :: ts) = Tok.ident s :: ts from rfl]
    | func n b => rw [show skipWsToks (Tok.func n b :: ts) = Tok.func n b :: ts from rfl]
    | paren b => rw [show skipWsToks (Tok.paren b :: ts) = Tok.paren b :: ts from rfl]
    | colon => rw [show skipWsToks (Tok.colon :: ts) = Tok.colon :: ts from rfl]
    | num s => rw [show skipWsToks (Tok.num s :: ts) = Tok.num s :: ts from rfl]
    | str s => rw [show skipWsToks (Tok.str s :: ts) = Tok.str s :: ts from rfl]
    | badString s =>
      rw [show skipWsToks (Tok.badString s :: ts) = Tok.badString s :: ts from rfl]
    | delim c => rw [show skipWsToks (Tok.delim c :: ts) = Tok.delim c :: ts from rfl]

theorem sizeL_skipWs_cons (input : List Tok) (t : Tok) (rest : List Tok)
    (h : skipWsToks input = t :: rest) : sizeT t + sizeL rest ≤ sizeL input := by
  have h1 := sizeL_skipWs_le input
  rw [h, sizeL_cons] at h1
  exact h1

end Supports

namespace Supports
theorem parse_stab : ∀ f : Nat,
    (∀ g input, sizeL input + 2 ≤ f → sizeL input + 2 ≤ g →
      parseF f input = parseF g input)
  ∧ (∀ g t, sizeT t + 1 ≤ f → sizeT t + 1 ≤ g → parseUnitF f t = parseUnitF g t)
  ∧ (∀ g t, sizeT t ≤ f → sizeT t ≤ g → tryBlockF f t = tryBlockF g t)
  ∧ (∀ g e fi conds input, sizeL input + 2 ≤ f → sizeL input + 2 ≤ g →
      parseLoopF f e fi conds input = parseLoopF g e fi conds input) := by
  intro f
  induction f using Nat.strong_induction_on with
  | _ f IH =>
  have IHu : ∀ f' < f, ∀ g t, sizeT t + 1 ≤ f' → sizeT t + 1 ≤ g →
      parseUnitF f' t = parseUnitF g t := fun f' hf' => (IH f' hf').2.1
  have IHt : ∀ f' < f, ∀ g t, sizeT t ≤ f' → sizeT t ≤ g →
      tryBlockF f' t = tryBlockF g t := fun f' hf' => (IH f' hf').2.2.1
  have IHl : ∀ f' < f, ∀ g e fi conds input, sizeL input + 2 ≤ f' →
      sizeL input + 2 ≤ g → parseLoopF f' e fi conds input
        = parseLoopF g e fi conds input := fun f' hf' => (IH f' hf').2.2.2
  have IHp : ∀ f' < f, ∀ g input, sizeL input + 2 ≤ f' → sizeL input + 2 ≤ g →
      parseF f' input = parseF g input := fun f' hf' => (IH f' hf').1
  refine ⟨?_, ?_, ?_, ?_⟩
  · -- parseF
    intro g input hf hg
    obtain ⟨f1, rfl⟩ : ∃ f1, f = f1 + 1 := ⟨f - 1, by omega⟩
    obtain ⟨g1, rfl⟩ : ∃ g1, g = g1 + 1 := ⟨g - 1, by omega⟩
    simp only [parseF]
    cases hsw : skipWsToks input with
    | nil => rfl
    | cons t rest =>
      have hsz := sizeL_skipWs_cons input t rest hsw
      have htp := sizeT_pos t
      cases t with
      | ident s =>
        have hone : sizeT (Tok.ident s) = 1 := rfl
        by_cases hnot : eqIgnoreCase s "not" = true
        · simp only [if_pos hnot]
          cases hsw2 : skipWsToks rest with
          | nil => rfl
          | cons t2 rest2 =>
            have hsz2 := sizeL_skipWs_cons rest t2 rest2 hsw2
            have ht2p := sizeT_pos t2
            have hu := IHu f1 (by omega) g1 t2 (by omega) (by omega)
            simp only [hu]
        · simp only [if_neg hnot]
      | func n b =>
        have hu := IHu f1 (by omega) g1 (Tok.func n b) (by omega) (by omega)
        simp only [hu]
        cases hpu : parseUnitF g1 (Tok.func n b) with
        | none => rfl
        | some first =>
          have hl := IHl f1 (by omega) g1 Option.none first [] rest
            (by omega) (by omega)
          simp only [hpu, hl]
      | paren b =>
        have hu := IHu f1 (by omega) g1 (Tok.paren b) (by omega) (by omega)
        simp only [hu]
        cases hpu : parseUnitF g1 (Tok.paren b) with
        | none => rfl
        | some first =>
          have hl := IHl f1 (by omega) g1 Option.none first [] rest
            (by omega) (by omega)
          simp only [hpu, hl]
      | colon =>
        have hu := IHu f1 (by omega) g1 Tok.colon (by omega) (by omega)
        simp only [hu]
        cases hpu : parseUnitF g1 Tok.colon with
        | none => rfl
        | some first =>
          have hl := IHl f1 (by omega) g1 Option.none first [] rest
            (by omega) (by omega)
          simp only [hpu, hl]
      | ws s =>
        have hu := IHu f1 (by omega) g1 (Tok.ws s) (by omega) (by omega)
        simp only [hu]
        cases hpu : parseUnitF g1 (Tok.ws s) with
        | none => rfl
        | some first =>
          have hl := IHl f1 (by omega) g1 Option.none first [] rest
            (by omega) (by omega)
          simp only [hpu, hl]
      | num s =>
        have hu := IHu f1 (by omega) g1 (Tok.num s) (by omega) (by omega)
        simp only [hu]
        cases hpu : parseUnitF g1 (Tok.num s) with
        | none => rfl
        | some first =>
          have hl := IHl f1 (by omega) g1 Option.none first [] rest
            (by omega) (by omega)
          simp only [hpu, hl]
      | str s =>
        have hu := IHu f1 (by omega) g1 (Tok.str s) (by omega) (by omega)
        simp only [hu]
        cases hpu : parseUnitF g1 (Tok.str s) with
        | none => rfl
        | some first =>
          have hl := IHl f1 (by omega) g1 Option.none first [] rest
            (by omega) (by omega)
          simp only [hpu, hl]
      | badString s =>
        have hu := IHu f1 (by omega) g1 (Tok.badString s) (by omega) (by omega)
        simp only [hu]
        cases hpu : parseUnitF g1 (Tok.badString s) with
        | none => rfl
        | some first =>
          have hl := IHl f1 (by omega) g1 Option.none first [] rest
            (by omega) (by omega)
          simp only [hpu, hl]
      | delim c =>
        have hu := IHu f1 (by omega) g1 (Tok.delim c) (by omega) (by omega)
        simp only [hu]
        cases hpu : parseUnitF g1 (Tok.delim c) with
        | none => rfl
        | some first =>
          have hl := IHl f1 (by omega) g1 Option.none first [] rest
            (by omega) (by omega)
          simp only [hpu, hl]
  · -- parseUnitF
    intro g t hf hg
    obtain ⟨f1, rfl⟩ : ∃ f1, f = f1 + 1 := ⟨f - 1, by omega⟩
    obtain ⟨g1, rfl⟩ : ∃ g1, g = g1 + 1 := ⟨g - 1, by omega⟩
    simp only [parseUnitF]
    cases t with
    | func n b => rfl
    | paren b =>
      have hpb : sizeT (Tok.paren b) = 3 + sizeL b := rfl
      have ht := IHt f1 (by omega) g1 (Tok.paren b) (by omega) (by omega)
      simp only [ht]
    | ident s => rfl
    | colon => rfl
    | ws s => rfl
    | num s => rfl
    | str s => rfl
    | badString s => rfl
    | delim c => rfl
  · -- tryBlockF
    intro g t hf hg
    have htp := sizeT_pos t
    obtain ⟨f1, rfl⟩ : ∃ f1, f = f1 + 1 := ⟨f - 1, by omega⟩
    obtain ⟨g1, rfl⟩ : ∃ g1, g = g1 + 1 := ⟨g - 1, by omega⟩
    cases t with
    | paren b =>
      simp only [tryBlockF]
      have hpb : sizeT (Tok.paren b) = 3 + sizeL b := rfl
      have hp := IHp f1 (by omega) g1 b (by omega) (by omega)
      simp only [hp]
    | func n b => rfl
    | ident s => rfl
    | colon => rfl
    | ws s => rfl
    | num s => rfl
    | str s => rfl
    | badString s => rfl
    | delim c => rfl
  · -- parseLoopF
    intro g e fi conds input hf hg
    obtain ⟨f1, rfl⟩ : ∃ f1, f = f1 + 1 := ⟨f - 1, by omega⟩
    obtain ⟨g1, rfl⟩ : ∃ g1, g = g1 + 1 := ⟨g - 1, by omega⟩
    simp only [parseLoopF]
    cases hsw : skipWsToks input with
    | nil => rfl
    | cons t rest =>
      have hsz := sizeL_skipWs_cons input t rest hsw
      cases t with
      | ident s =>
        have hone : sizeT (Tok.ident s) = 1 := rfl
        by_cases hand : eqIgnoreCase s "and" = true
        · simp only [if_pos hand]
          by_cases hex : e ≠ Option.none ∧ e ≠ some 1
          · simp only [if_pos hex]
          · simp only [if_neg hex]
            cases hsw2 : skipWsToks rest with
            | nil => rfl
            | cons t2 rest2 =>
              have hsz2 := sizeL_skipWs_cons rest t2 rest2 hsw2
              have ht2p := sizeT_pos t2
              have hu := IHu f1 (by omega) g1 t2 (by omega) (by omega)
              simp only [hu]
              cases hpu : parseUnitF g1 t2 with
              | none => rfl
              | some c =>
                have hl := IHl f1 (by omega) g1 (some 1) fi
                  (if conds.isEmpty then [fi, c] else conds ++ [c]) rest2
                  (by omega) (by omega)
                simp only [hpu, hl]
        · by_cases hor : eqIgnoreCase s "or" = true
          · simp only [if_neg hand, if_pos hor]
            by_cases hex : e ≠ Option.none ∧ e ≠ some 2
            · simp only [if_pos hex]
            · simp only [if_neg hex]
              cases hsw2 : skipWsToks rest with
              | nil => rfl
              | cons t2 rest2 =>
                have hsz2 := sizeL_skipWs_cons rest t2 rest2 hsw2
                have ht2p := sizeT_pos t2
                have hu := IHu f1 (by omega) g1 t2 (by omega) (by omega)
                simp only [hu]
                cases hpu : parseUnitF g1 t2 with
                | none => rfl
                | some c =>
                  have hl := IHl f1 (by omega) g1 (some 2) fi
                    (if conds.isEmpty then [fi, c] else conds ++ [c]) rest2
                    (by omega) (by omega)
                  simp only [hpu, hl]
          · simp only [if_neg hand, if_neg hor]
      | func n b => rfl
      | paren b => rfl
      | colon => rfl
      | ws s => rfl
      | num s => rfl
      | str s => rfl
      | badString s => rfl
      | delim c => rfl

end Supports

namespace Supports

/-- Fuel irrelevance for the unit parser: any sufficient fuel computes the
canonical value. -/
theorem parseUnitF_stable (f : Nat) (t : Tok) (hf : sizeT t + 1 ≤ f) :
    parseUnitF f t = parseUnit t :=
  (parse_stab f).2.1 (sizeT t + 1) t hf le_rfl

/-- Fuel irrelevance for the block parser. -/
theorem tryBlockF_stable (f : Nat) (t : Tok) (hf : sizeT t ≤ f) :
    tryBlockF f t = tryBlock t :=
  (parse_stab f).2.2.1 (sizeT t) t hf le_rfl

/-- Fuel irrelevance for the condition parser. -/
theorem parseF_stable (f : Nat) (input : List Tok) (hf : sizeL input + 2 ≤ f) :
    parseF f input = SupportsCondition.parse input :=
  (parse_stab f).1 (2 + sizeL input) input hf (by omega)

/-- Fuel irrelevance for the parse loop. -/
theorem parseLoopF_stable (f : Nat) (e : Option Nat) (fi : SupportsCondition)
    (conds : List SupportsCondition) (input : List Tok)
    (hf : sizeL input + 2 ≤ f) :
    parseLoopF f e fi conds input = parseLoop e fi conds input :=
  (parse_stab f).2.2.2 (sizeL input + 2) e fi conds input hf le_rfl

end Supports

namespace Supports

/-- A colon is never a parseable unit. -/
theorem parseUnitF_colon (f : Nat) : parseUnitF f Tok.colon = Option.none := by
  cases f <;> rfl

/-- The parse loop on exhausted input returns its state unchanged. -/
theorem parseLoopF_nil (f : Nat) (e : Option Nat) (fi : SupportsCondition)
    (conds : List SupportsCondition) :
    parseLoopF f e fi conds [] = (e, conds, []) := by
  cases f <;> rfl

/-- The size measure is additive over append. -/
theorem sizeL_append (a b : List Tok) : sizeL (a ++ b) = sizeL a + sizeL b := by
  induction a with
  | nil => rw [show ([] : List Tok) ++ b = b from rfl, show sizeL [] = 0 from rfl]; omega
  | cons t ts ih =>
    rw [show (t :: ts) ++ b = t :: (ts ++ b) from rfl, sizeL_cons, sizeL_cons, ih]
    omega

/-- Skipping whitespace is the identity on streams not starting with
whitespace. -/
theorem skipWs_headNotWs (l : List Tok) (h : headNotWs l = true) :
    skipWsToks l = l := by
  cases l with
  | nil => rfl
  | cons t ts => cases t <;> first | rfl | simp [headNotWs] at h

/-- On well-formed conditions the unit token is a block token. -/
theorem opTok_shape (C : SupportsCondition) (hwf : wfSC C = true) :
    (∃ b, opTok C = Tok.paren b) ∨ (∃ n b, opTok C = Tok.func n b) := by
  cases C with
  | not c => exact Or.inl ⟨_, rfl⟩
  | and l => exact Or.inl ⟨_, rfl⟩
  | or l => exact Or.inl ⟨_, rfl⟩
  | declaration p v =>
    simp only [wfSC, Bool.and_eq_true] at hwf
    obtain ⟨k, hk, _, _⟩ := wfDeclPid_elim p hwf.1.1
    cases k <;> simp [opTok, hk]
  | selector s => exact Or.inr ⟨_, _, rfl⟩
  | unknown s =>
    rcases wfUnknown_elim s hwf with ⟨name, block, hv, _⟩ | ⟨block, hv, _⟩ <;>
      [exact Or.inr ⟨name, block, by simp [opTok, valToks, hv]⟩;
       exact Or.inl ⟨block, by simp [opTok, valToks, hv]⟩]

/-- Atomic conditions print to exactly their unit token. -/
theorem unit_print (C : SupportsCondition) (hwf : wfSC C = true)
    (hu : (C.isNot || C.isAnd || C.isOr) = false) :
    printToks C = [opTok C] := by
  cases C with
  | not c => simp [SupportsCondition.isNot] at hu
  | and l => simp [SupportsCondition.isAnd] at hu
  | or l => simp [SupportsCondition.isOr] at hu
  | declaration p v =>
    simp only [wfSC, Bool.and_eq_true] at hwf
    obtain ⟨k, hk, _, _⟩ := wfDeclPid_elim p hwf.1.1
    cases k <;> simp [printToks, opTok, hk]
  | selector s => simp [printToks, opTok]
  | unknown s =>
    rcases wfUnknown_elim s hwf with ⟨name, block, hv, _⟩ | ⟨block, hv, _⟩ <;>
      simp [printToks, opTok, valToks, hv]

/-- An item of a printed condition (parenthesized when `needs_parens`
demands it) is exactly its unit token, provided a same-kind list is not
nested directly in a same-kind parent. -/
theorem item_opTok (c parent : SupportsCondition) (hwf : wfSC c = true)
    (hA : ¬(c.isAnd = true ∧ parent.isAnd = true))
    (hO : ¬(c.isOr = true ∧ parent.isOr = true)) :
    (if c.needs_parens parent then [Tok.paren (printToks c)] else printToks c)
      = [opTok c] := by
  cases c with
  | not c' => simp [SupportsCondition.needs_parens, opTok]
  | and l =>
    have hpa : parent.isAnd = false := by
      cases hp : parent.isAnd
      · rfl
      · exact absurd ⟨by simp [SupportsCondition.isAnd], hp⟩ hA
    cases parent <;> simp_all [SupportsCondition.needs_parens,
      SupportsCondition.isAnd, opTok]
  | or l =>
    have hpo : parent.isOr = false := by
      cases hp : parent.isOr
      · rfl
      · exact absurd ⟨by simp [SupportsCondition.isOr], hp⟩ hO
    cases parent <;> simp_all [SupportsCondition.needs_parens,
      SupportsCondition.isOr, opTok]
  | declaration p v =>
    rw [if_neg (by simp [SupportsCondition.needs_parens])]
    exact unit_print _ hwf (by simp [SupportsCondition.isNot,
      SupportsCondition.isAnd, SupportsCondition.isOr])
  | selector s =>
    rw [if_neg (by simp [SupportsCondition.needs_parens])]
    exact unit_print _ hwf (by simp [SupportsCondition.isNot,
      SupportsCondition.isAnd, SupportsCondition.isOr])
  | unknown s =>
    rw [if_neg (by simp [SupportsCondition.needs_parens])]
    exact unit_print _ hwf (by simp [SupportsCondition.isNot,
      SupportsCondition.isAnd, SupportsCondition.isOr])

/-- The full condition parser fails on a block whose contents start with
an identifier followed by a colon (a declaration shape). -/
theorem parseF_ident_colon (f : Nat) (s : String) (rest : List Tok) :
    parseF f (Tok.ident s :: Tok.colon :: rest) = Option.none := by
  cases f with
  | zero => rfl
  | succ f1 =>
    simp only [parseF]
    rw [show skipWsToks (Tok.ident s :: Tok.colon :: rest)
      = Tok.ident s :: Tok.colon :: rest from rfl]
    by_cases hnot : eqIgnoreCase s "not" = true
    · simp only [if_pos hnot]
      rw [show skipWsToks (Tok.colon :: rest) = Tok.colon :: rest from rfl]
      simp only [parseUnitF_colon]
    · simp only [if_neg hnot]

/-- `parse_declaration` on a printed declaration block recovers the
identifier and the raw value. -/
theorem parse_declaration_decl (s : String) (v : String)
    (hval : wfValue v = true) (hnw : headNotWs (valToks v) = true) :
    SupportsCondition.parse_declaration
        (Tok.ident s :: Tok.colon :: Tok.ws " " :: valToks v)
      = some (.declaration (PropertyId.parse_name s) v, []) := by
  obtain ⟨htok, hcan, hren, herr⟩ := wfValue_elim v hval
  have h0 : skipWsToks (Tok.ident s :: Tok.colon :: Tok.ws " " :: valToks v)
    = Tok.ident s :: Tok.colon :: Tok.ws " " :: valToks v := rfl
  have h1 : skipWsToks (Tok.colon :: Tok.ws " " :: valToks v)
    = Tok.colon :: Tok.ws " " :: valToks v := rfl
  have h2 : skipWsToks (Tok.ws " " :: valToks v) = skipWsToks (valToks v) := rfl
  have h3 : skipWsToks (valToks v) = valToks v := skipWs_headNotWs _ hnw
  simp only [SupportsCondition.parse_declaration, h0, h1, h2, h3, herr, hren,
    if_true]

end Supports

namespace Supports

theorem sizeT_paren (b : List Tok) : sizeT (Tok.paren b) = 3 + sizeL b := rfl

theorem sizeT_func (n : String) (b : List Tok) :
    sizeT (Tok.func n b) = 3 + sizeL b := rfl

theorem sizeT_ident (s : String) : sizeT (Tok.ident s) = 1 := rfl

theorem sizeT_ws (s : String) : sizeT (Tok.ws s) = 1 := rfl

theorem sizeL_nil : sizeL ([] : List Tok) = 0 := rfl

theorem str_append_empty (s : String) : s ++ "" = s := by
  obtain ⟨d⟩ := s
  show String.mk (d ++ []) = String.mk d
  rw [List.append_nil]

/-- The source text of a single token is the text of its singleton list. -/
theorem renderTok_single (t : Tok) : renderList [t] = renderTok t := by
  show renderTok t ++ renderList [] = renderTok t
  rw [show renderList [] = "" from rfl, str_append_empty]

end Supports

namespace Supports

/-- Well-formedness of a list gives well-formedness of each member. -/
theorem wfL_mem : ∀ (l : List SupportsCondition) (c : SupportsCondition),
    wfL l = true → c ∈ l → wfSC c = true := by
  intro l
  induction l with
  | nil => intro c _ hc; simp at hc
  | cons x xs ih =>
    intro c h hc
    simp only [wfL, Bool.and_eq_true] at h
    rcases List.mem_cons.mp hc with rfl | hc
    · exact h.1
    · exact ih c h.2 hc

/-- Flatness of a list gives flatness of each member. -/
theorem noFlatL_mem : ∀ (l : List SupportsCondition) (c : SupportsCondition),
    noFlatL l = true → c ∈ l → noFlat c = true := by
  intro l
  induction l with
  | nil => intro c _ hc; simp at hc
  | cons x xs ih =>
    intro c h hc
    simp only [noFlatL, Bool.and_eq_true] at h
    rcases List.mem_cons.mp hc with rfl | hc
    · exact h.1
    · exact ih c h.2 hc

end Supports

namespace Supports

/-- Skipping whitespace on an empty stream. -/
theorem skipWs_nil : skipWsToks ([] : List Tok) = [] := rfl

mutual

/-- `parse_in_parens` recovers a well-formed, flat condition from its unit
token. -/
theorem unitParse_ok (C : SupportsCondition) (hwf : wfSC C = true)
    (hnf : noFlat C = true) (f : Nat) (hf : sizeT (opTok C) + 1 ≤ f) :
    parseUnitF f (opTok C) = some C := by
  cases C with
  | not c =>
    have h3 : sizeT (opTok (SupportsCondition.not c))
        = 3 + sizeL (printToks (SupportsCondition.not c)) := rfl
    obtain ⟨f1, rfl⟩ : ∃ f1, f = f1 + 1 := ⟨f - 1, by omega⟩
    obtain ⟨f2, rfl⟩ : ∃ f2, f1 = f2 + 1 := ⟨f1 - 1, by omega⟩
    have hp := notParse_ok c hwf hnf f2 (by omega)
    simp [opTok, parseUnitF, tryBlockF, hp, skipWs_nil]
  | and l =>
    simp only [wfSC, Bool.and_eq_true, decide_eq_true_eq] at hwf
    simp only [noFlat, Bool.and_eq_true] at hnf
    have h3 : sizeT (opTok (SupportsCondition.and l))
        = 3 + sizeL (printItems "and" (SupportsCondition.and l) l) := rfl
    obtain ⟨f1, rfl⟩ : ∃ f1, f = f1 + 1 := ⟨f - 1, by omega⟩
    obtain ⟨f2, rfl⟩ : ∃ f2, f1 = f2 + 1 := ⟨f1 - 1, by omega⟩
    have hp := andParse_ok l hwf.1 hwf.2 hnf.2 hnf.1 f2 (by omega)
    simp [opTok, printToks, parseUnitF, tryBlockF, hp, skipWs_nil]
  | or l =>
    simp only [wfSC, Bool.and_eq_true, decide_eq_true_eq] at hwf
    simp only [noFlat, Bool.and_eq_true] at hnf
    have h3 : sizeT (opTok (SupportsCondition.or l))
        = 3 + sizeL (printItems "or" (SupportsCondition.or l) l) := rfl
    obtain ⟨f1, rfl⟩ : ∃ f1, f = f1 + 1 := ⟨f - 1, by omega⟩
    obtain ⟨f2, rfl⟩ : ∃ f2, f1 = f2 + 1 := ⟨f1 - 1, by omega⟩
    have hp := orParse_ok l hwf.1 hwf.2 hnf.2 hnf.1 f2 (by omega)
    simp [opTok, printToks, parseUnitF, tryBlockF, hp, skipWs_nil]
  | declaration p v =>
    simp only [wfSC, Bool.and_eq_true] at hwf
    obtain ⟨⟨hpid, hval⟩, hnw⟩ := hwf
    obtain ⟨k, hk, hid, hpn⟩ := wfDeclPid_elim p hpid
    obtain ⟨htok, hcan, hren, herr⟩ := wfValue_elim v hval
    have hdecl := parse_declaration_decl (VendorPrefix.Flag.to_css k ++ p.name)
      v hval hnw
    rw [hpn] at hdecl
    cases k with
    | none =>
      have hB : opTok (SupportsCondition.declaration p v)
          = Tok.paren (Tok.ident p.name :: Tok.colon :: Tok.ws " " :: valToks v) := by
        simp [opTok, hk]
      rw [hB] at hf ⊢
      have h3 := sizeT_paren (Tok.ident p.name :: Tok.colon :: Tok.ws " " :: valToks v)
      obtain ⟨f1, rfl⟩ : ∃ f1, f = f1 + 1 := ⟨f - 1, by omega⟩
      obtain ⟨f2, rfl⟩ : ∃ f2, f1 = f2 + 1 := ⟨f1 - 1, by omega⟩
      have hid' : VendorPrefix.Flag.to_css VendorPrefix.Flag.none ++ p.name
          = p.name := rfl
      rw [hid'] at hdecl
      simp [parseUnitF, tryBlockF, parseF_ident_colon, hdecl, skipWs_nil]
    | webkit =>
      have hB : opTok (SupportsCondition.declaration p v)
          = Tok.paren [Tok.paren (Tok.ident (VendorPrefix.Flag.to_css
              VendorPrefix.Flag.webkit ++ p.name)
            :: Tok.colon :: Tok.ws " " :: valToks v)] := by
        simp [opTok, hk]
      rw [hB] at hf ⊢
      have h3 := sizeT_paren [Tok.paren (Tok.ident (VendorPrefix.Flag.to_css
        VendorPrefix.Flag.webkit ++ p.name) :: Tok.colon :: Tok.ws " " :: valToks v)]
      have h4 := sizeL_cons (Tok.paren (Tok.ident (VendorPrefix.Flag.to_css
        VendorPrefix.Flag.webkit ++ p.name) :: Tok.colon :: Tok.ws " " :: valToks v)) []
      have h5 := sizeT_paren (Tok.ident (VendorPrefix.Flag.to_css
        VendorPrefix.Flag.webkit ++ p.name) :: Tok.colon :: Tok.ws " " :: valToks v)
      have h6 := sizeL_nil
      obtain ⟨f1, rfl⟩ : ∃ f1, f = f1 + 1 := ⟨f - 1, by omega⟩
      obtain ⟨f2, rfl⟩ : ∃ f2, f1 = f2 + 1 := ⟨f1 - 1, by omega⟩
      obtain ⟨f3, rfl⟩ : ∃ f3, f2 = f3 + 1 := ⟨f2 - 1, by omega⟩
      obtain ⟨f4, rfl⟩ : ∃ f4, f3 = f4 + 1 := ⟨f3 - 1, by omega⟩
      obtain ⟨f5, rfl⟩ : ∃ f5, f4 = f5 + 1 := ⟨f4 - 1, by omega⟩
      have h7 : skipWsToks [Tok.paren (Tok.ident (VendorPrefix.Flag.to_css
          VendorPrefix.Flag.webkit ++ p.name) :: Tok.colon :: Tok.ws " "
          :: valToks v)]
        = [Tok.paren (Tok.ident (VendorPrefix.Flag.to_css
          VendorPrefix.Flag.webkit ++ p.name) :: Tok.colon :: Tok.ws " "
          :: valToks v)] := rfl
      simp [parseUnitF, tryBlockF, parseF, h7, parseF_ident_colon, hdecl,
        parseLoopF_nil, skipWs_nil]
    | moz =>
      have hB : opTok (SupportsCondition.declaration p v)
          = Tok.paren [Tok.paren (Tok.ident (VendorPrefix.Flag.to_css
              VendorPrefix.Flag.moz ++ p.name)
            :: Tok.colon :: Tok.ws " " :: valToks v)] := by
        simp [opTok, hk]
      rw [hB] at hf ⊢
      have h3 := sizeT_paren [Tok.paren (Tok.ident (VendorPrefix.Flag.to_css
        VendorPrefix.Flag.moz ++ p.name) :: Tok.colon :: Tok.ws " " :: valToks v)]
      have h4 := sizeL_cons (Tok.paren (Tok.ident (VendorPrefix.Flag.to_css
        VendorPrefix.Flag.moz ++ p.name) :: Tok.colon :: Tok.ws " " :: valToks v)) []
      have h5 := sizeT_paren (Tok.ident (VendorPrefix.Flag.to_css
        VendorPrefix.Flag.moz ++ p.name) :: Tok.colon :: Tok.ws " " :: valToks v)
      have h6 := sizeL_nil
      obtain ⟨f1, rfl⟩ : ∃ f1, f = f1 + 1 := ⟨f - 1, by omega⟩
      obtain ⟨f2, rfl⟩ : ∃ f2, f1 = f2 + 1 := ⟨f1 - 1, by omega⟩
      obtain ⟨f3, rfl⟩ : ∃ f3, f2 = f3 + 1 := ⟨f2 - 1, by omega⟩
      obtain ⟨f4, rfl⟩ : ∃ f4, f3 = f4 + 1 := ⟨f3 - 1, by omega⟩
      obtain ⟨f5, rfl⟩ : ∃ f5, f4 = f5 + 1 := ⟨f4 - 1, by omega⟩
      have h7 : skipWsToks [Tok.paren (Tok.ident (VendorPrefix.Flag.to_css
          VendorPrefix.Flag.moz ++ p.name) :: Tok.colon :: Tok.ws " "
          :: valToks v)]
        = [Tok.paren (Tok.ident (VendorPrefix.Flag.to_css
          VendorPrefix.Flag.moz ++ p.name) :: Tok.colon :: Tok.ws " "
          :: valToks v)] := rfl
      simp [parseUnitF, tryBlockF, parseF, h7, parseF_ident_colon, hdecl,
        parseLoopF_nil, skipWs_nil]
    | ms =>
      have hB : opTok (SupportsCondition.declaration p v)
          = Tok.paren [Tok.paren (Tok.ident (VendorPrefix.Flag.to_css
              VendorPrefix.Flag.ms ++ p.name)
            :: Tok.colon :: Tok.ws " " :: valToks v)] := by
        simp [opTok, hk]
      rw [hB] at hf ⊢
      have h3 := sizeT_paren [Tok.paren (Tok.ident (VendorPrefix.Flag.to_css
        VendorPrefix.Flag.ms ++ p.name) :: Tok.colon :: Tok.ws " " :: valToks v)]
      have h4 := sizeL_cons (Tok.paren (Tok.ident (VendorPrefix.Flag.to_css
        VendorPrefix.Flag.ms ++ p.name) :: Tok.colon :: Tok.ws " " :: valToks v)) []
      have h5 := sizeT_paren (Tok.ident (VendorPrefix.Flag.to_css
        VendorPrefix.Flag.ms ++ p.name) :: Tok.colon :: Tok.ws " " :: valToks v)
      have h6 := sizeL_nil
      obtain ⟨f1, rfl⟩ : ∃ f1, f = f1 + 1 := ⟨f - 1, by omega⟩
      obtain ⟨f2, rfl⟩ : ∃ f2, f1 = f2 + 1 := ⟨f1 - 1, by omega⟩
      obtain ⟨f3, rfl⟩ : ∃ f3, f2 = f3 + 1 := ⟨f2 - 1, by omega⟩
      obtain ⟨f4, rfl⟩ : ∃ f4, f3 = f4 + 1 := ⟨f3 - 1, by omega⟩
      obtain ⟨f5, rfl⟩ : ∃ f5, f4 = f5 + 1 := ⟨f4 - 1, by omega⟩
      have h7 : skipWsToks [Tok.paren (Tok.ident (VendorPrefix.Flag.to_css
          VendorPrefix.Flag.ms ++ p.name) :: Tok.colon :: Tok.ws " "
          :: valToks v)]
        = [Tok.paren (Tok.ident (VendorPrefix.Flag.to_css
          VendorPrefix.Flag.ms ++ p.name) :: Tok.colon :: Tok.ws " "
          :: valToks v)] := rfl
      simp [parseUnitF, tryBlockF, parseF, h7, parseF_ident_colon, hdecl,
        parseLoopF_nil, skipWs_nil]
    | o =>
      have hB : opTok (SupportsCondition.declaration p v)
          = Tok.paren [Tok.paren (Tok.ident (VendorPrefix.Flag.to_css
              VendorPrefix.Flag.o ++ p.name)
            :: Tok.colon :: Tok.ws " " :: valToks v)] := by
        simp [opTok, hk]
      rw [hB] at hf ⊢
      have h3 := sizeT_paren [Tok.paren (Tok.ident (VendorPrefix.Flag.to_css
        VendorPrefix.Flag.o ++ p.name) :: Tok.colon :: Tok.ws " " :: valToks v)]
      have h4 := sizeL_cons (Tok.paren (Tok.ident (VendorPrefix.Flag.to_css
        VendorPrefix.Flag.o ++ p.name) :: Tok.colon :: Tok.ws " " :: valToks v)) []
      have h5 := sizeT_paren (Tok.ident (VendorPrefix.Flag.to_css
        VendorPrefix.Flag.o ++ p.name) :: Tok.colon :: Tok.ws " " :: valToks v)
      have h6 := sizeL_nil
      obtain ⟨f1, rfl⟩ : ∃ f1, f = f1 + 1 := ⟨f - 1, by omega⟩
      obtain ⟨f2, rfl⟩ : ∃ f2, f1 = f2 + 1 := ⟨f1 - 1, by omega⟩
      obtain ⟨f3, rfl⟩ : ∃ f3, f2 = f3 + 1 := ⟨f2 - 1, by omega⟩
      obtain ⟨f4, rfl⟩ : ∃ f4, f3 = f4 + 1 := ⟨f3 - 1, by omega⟩
      obtain ⟨f5, rfl⟩ : ∃ f5, f4 = f5 + 1 := ⟨f4 - 1, by omega⟩
      have h7 : skipWsToks [Tok.paren (Tok.ident (VendorPrefix.Flag.to_css
          VendorPrefix.Flag.o ++ p.name) :: Tok.colon :: Tok.ws " "
          :: valToks v)]
        = [Tok.paren (Tok.ident (VendorPrefix.Flag.to_css
          VendorPrefix.Flag.o ++ p.name) :: Tok.colon :: Tok.ws " "
          :: valToks v)] := rfl
      simp [parseUnitF, tryBlockF, parseF, h7, parseF_ident_colon, hdecl,
        parseLoopF_nil, skipWs_nil]
  | selector s =>
    have hval : wfValue s = true := hwf
    obtain ⟨htok, hcan, hren, herr⟩ := wfValue_elim s hval
    obtain ⟨f1, rfl⟩ : ∃ f1, f = f1 + 1 := ⟨f - 1, by omega⟩
    have hsel : eqIgnoreCase "selector" "selector" = true := by decide
    simp only [opTok, parseUnitF, hsel, if_true, herr, hren]
  | unknown s =>
    rcases wfUnknown_elim s hwf with ⟨name, block, hv, hcan, hren, herr, hnsel⟩
      | ⟨block, hv, hcan, hren, herr, htb⟩
    · have hop : opTok (SupportsCondition.unknown s) = Tok.func name block := by
        simp [opTok, valToks, hv]
      rw [hop] at hf ⊢
      obtain ⟨f1, rfl⟩ : ∃ f1, f = f1 + 1 := ⟨f - 1, by omega⟩
      have hs : renderTok (Tok.func name block) = s := by
        rw [← hren, renderTok_single]
      simp [parseUnitF, hnsel, fallbackUnit, herr, hs]
    · have hop : opTok (SupportsCondition.unknown s) = Tok.paren block := by
        simp [opTok, valToks, hv]
      rw [hop] at hf ⊢
      obtain ⟨f1, rfl⟩ : ∃ f1, f = f1 + 1 := ⟨f - 1, by omega⟩
      have hst : tryBlockF f1 (Tok.paren block) = tryBlock (Tok.paren block) :=
        tryBlockF_stable f1 _ (by omega)
      have hs : renderTok (Tok.paren block) = s := by
        rw [← hren, renderTok_single]
      simp [parseUnitF, hst, htb, fallbackUnit, herr, hs]
termination_by 2 * sizeOf C

/-- The condition parser recovers a `Not` from its printed stream. -/
theorem notParse_ok (c : SupportsCondition) (hwf : wfSC c = true)
    (hnf : noFlat c = true) (f : Nat)
    (hf : sizeL (printToks (SupportsCondition.not c)) + 2 ≤ f) :
    parseF f (printToks (SupportsCondition.not c))
      = some (SupportsCondition.not c, []) := by
  have hitem : (if c.needs_parens (SupportsCondition.not c) then
        [Tok.paren (printToks c)] else printToks c) = [opTok c] :=
    item_opTok c _ hwf (by simp [SupportsCondition.isAnd])
      (by simp [SupportsCondition.isOr])
  have hpr : printToks (SupportsCondition.not c)
      = Tok.ident "not" :: Tok.ws " " :: [opTok c] := by
    simp only [printToks]
    rw [hitem]
  rw [hpr] at hf ⊢
  rw [sizeL_cons, sizeL_cons, sizeL_cons, sizeL_nil, sizeT_ident, sizeT_ws] at hf
  obtain ⟨f1, rfl⟩ : ∃ f1, f = f1 + 1 := ⟨f - 1, by omega⟩
  have h0 : skipWsToks (Tok.ident "not" :: Tok.ws " " :: [opTok c])
      = Tok.ident "not" :: Tok.ws " " :: [opTok c] := rfl
  have hnotkw : eqIgnoreCase "not" "not" = true := by decide
  have h2 : skipWsToks [opTok c] = [opTok c] := by
    rcases opTok_shape c hwf with ⟨b, hb⟩ | ⟨n, b, hb⟩ <;> rw [hb] <;> rfl
  have h1 : skipWsToks (Tok.ws " " :: [opTok c]) = [opTok c] := h2
  have hu := unitParse_ok c hwf hnf f1 (by omega)
  simp only [parseF, h0, hnotkw, if_true, h1, hu]
termination_by 2 * sizeOf c + 1

/-- The condition parser recovers an `And` list from its printed stream. -/
theorem andParse_ok (l : List SupportsCondition) (hlen : 2 ≤ l.length)
    (hwl : wfL l = true) (hnfl : noFlatL l = true)
    (hall : l.all (fun c => !c.isAnd) = true) (f : Nat)
    (hf : sizeL (printItems "and" (SupportsCondition.and l) l) + 2 ≤ f) :
    parseF f (printItems "and" (SupportsCondition.and l) l)
      = some (SupportsCondition.and l, []) := by
  obtain ⟨c1, l2, rfl⟩ : ∃ c1 l2, l = c1 :: l2 := by
    cases l with
    | nil => simp at hlen
    | cons a b => exact ⟨a, b, rfl⟩
  obtain ⟨c2, cs3, rfl⟩ : ∃ c2 cs3, l2 = c2 :: cs3 := by
    cases l2 with
    | nil => simp at hlen
    | cons a b => exact ⟨a, b, rfl⟩
  clear hlen
  have hsp1 : wfSC c1 = true ∧ wfL (c2 :: cs3) = true := by
    rw [show wfL (c1 :: c2 :: cs3) = (wfSC c1 && wfL (c2 :: cs3)) from rfl,
      Bool.and_eq_true] at hwl
    exact hwl
  have hsp2 : noFlat c1 = true ∧ noFlatL (c2 :: cs3) = true := by
    rw [show noFlatL (c1 :: c2 :: cs3) = (noFlat c1 && noFlatL (c2 :: cs3))
      from rfl, Bool.and_eq_true] at hnfl
    exact hnfl
  have hsp3 : (!c1.isAnd) = true
      ∧ ((c2 :: cs3).all fun c => !c.isAnd) = true := by
    rw [show ((c1 :: c2 :: cs3).all fun c => !c.isAnd)
      = ((!c1.isAnd) && ((c2 :: cs3).all fun c => !c.isAnd)) from rfl,
      Bool.and_eq_true] at hall
    exact hall
  obtain ⟨hwf1, hwl'⟩ := hsp1
  obtain ⟨hnf1, hnfl'⟩ := hsp2
  obtain ⟨hna1, hall'⟩ := hsp3
  simp only [Bool.not_eq_true'] at hna1
  have hitem1 : (if c1.needs_parens (SupportsCondition.and (c1 :: c2 :: cs3)) then
        [Tok.paren (printToks c1)] else printToks c1) = [opTok c1] :=
    item_opTok c1 _ hwf1 (by simp [hna1]) (by simp [SupportsCondition.isOr])
  have hpr : printItems "and" (SupportsCondition.and (c1 :: c2 :: cs3))
        (c1 :: c2 :: cs3)
      = opTok c1 :: Tok.ws " " :: Tok.ident "and" :: Tok.ws " "
          :: printItems "and" (SupportsCondition.and (c1 :: c2 :: cs3))
            (c2 :: cs3) := by
    simp only [printItems, hitem1]
    rfl
  rw [hpr] at hf ⊢
  rw [sizeL_cons, sizeL_cons, sizeL_cons, sizeL_cons, sizeT_ident, sizeT_ws] at hf
  have hop1 := sizeT_pos (opTok c1)
  obtain ⟨f1, rfl⟩ : ∃ f1, f = f1 + 1 := ⟨f - 1, by omega⟩
  have hitems : ∀ x ∈ c2 :: cs3,
      (if x.needs_parens (SupportsCondition.and (c1 :: c2 :: cs3)) then
        [Tok.paren (printToks x)] else printToks x) = [opTok x] := by
    intro x hx
    have hxw := wfL_mem _ x hwl' hx
    have hxa : x.isAnd = false := by
      have := List.all_eq_true.mp hall' x hx
      simpa using this
    exact item_opTok x _ hxw (by simp [hxa]) (by simp [SupportsCondition.isOr])
  have hloop := loop_ok (c2 :: cs3) "and"
    (SupportsCondition.and (c1 :: c2 :: cs3)) 1 Option.none c1 []
    (by simp) hwl' hnfl' hitems (by decide) (Or.inl rfl) f1
    (by rw [sizeL_cons, sizeL_cons, sizeL_cons, sizeT_ident, sizeT_ws]; omega)
  have hu := unitParse_ok c1 hwf1 hnf1 f1 (by omega)
  rcases opTok_shape c1 hwf1 with ⟨b, hb⟩ | ⟨n, b, hb⟩
  · rw [hb] at hu ⊢
    have h0 : skipWsToks (Tok.paren b :: Tok.ws " " :: Tok.ident "and"
        :: Tok.ws " " :: printItems "and"
          (SupportsCondition.and (c1 :: c2 :: cs3)) (c2 :: cs3))
      = Tok.paren b :: Tok.ws " " :: Tok.ident "and" :: Tok.ws " "
        :: printItems "and" (SupportsCondition.and (c1 :: c2 :: cs3))
          (c2 :: cs3) := rfl
    simp [parseF, h0, hu, hloop]
  · rw [hb] at hu ⊢
    have h0 : skipWsToks (Tok.func n b :: Tok.ws " " :: Tok.ident "and"
        :: Tok.ws " " :: printItems "and"
          (SupportsCondition.and (c1 :: c2 :: cs3)) (c2 :: cs3))
      = Tok.func n b :: Tok.ws " " :: Tok.ident "and" :: Tok.ws " "
        :: printItems "and" (SupportsCondition.and (c1 :: c2 :: cs3))
          (c2 :: cs3) := rfl
    simp [parseF, h0, hu, hloop]
termination_by 2 * sizeOf l + 1

/-- The condition parser recovers an `Or` list from its printed stream. -/
theorem orParse_ok (l : List SupportsCondition) (hlen : 2 ≤ l.length)
    (hwl : wfL l = true) (hnfl : noFlatL l = true)
    (hall : l.all (fun c => !c.isOr) = true) (f : Nat)
    (hf : sizeL (printItems "or" (SupportsCondition.or l) l) + 2 ≤ f) :
    parseF f (printItems "or" (SupportsCondition.or l) l)
      = some (SupportsCondition.or l, []) := by
  obtain ⟨c1, l2, rfl⟩ : ∃ c1 l2, l = c1 :: l2 := by
    cases l with
    | nil => simp at hlen
    | cons a b => exact ⟨a, b, rfl⟩
  obtain ⟨c2, cs3, rfl⟩ : ∃ c2 cs3, l2 = c2 :: cs3 := by
    cases l2 with
    | nil => simp at hlen
    | cons a b => exact ⟨a, b, rfl⟩
  clear hlen
  have hsp1 : wfSC c1 = true ∧ wfL (c2 :: cs3) = true := by
    rw [show wfL (c1 :: c2 :: cs3) = (wfSC c1 && wfL (c2 :: cs3)) from rfl,
      Bool.and_eq_true] at hwl
    exact hwl
  have hsp2 : noFlat c1 = true ∧ noFlatL (c2 :: cs3) = true := by
    rw [show noFlatL (c1 :: c2 :: cs3) = (noFlat c1 && noFlatL (c2 :: cs3))
      from rfl, Bool.and_eq_true] at hnfl
    exact hnfl
  have hsp3 : (!c1.isOr) = true
      ∧ ((c2 :: cs3).all fun c => !c.isOr) = true := by
    rw [show ((c1 :: c2 :: cs3).all fun c => !c.isOr)
      = ((!c1.isOr) && ((c2 :: cs3).all fun c => !c.isOr)) from rfl,
      Bool.and_eq_true] at hall
    exact hall
  obtain ⟨hwf1, hwl'⟩ := hsp1
  obtain ⟨hnf1, hnfl'⟩ := hsp2
  obtain ⟨hna1, hall'⟩ := hsp3
  simp only [Bool.not_eq_true'] at hna1
  have hitem1 : (if c1.needs_parens (SupportsCondition.or (c1 :: c2 :: cs3)) then
        [Tok.paren (printToks c1)] else printToks c1) = [opTok c1] :=
    item_opTok c1 _ hwf1 (by simp [SupportsCondition.isAnd]) (by simp [hna1])
  have hpr : printItems "or" (SupportsCondition.or (c1 :: c2 :: cs3))
        (c1 :: c2 :: cs3)
      = opTok c1 :: Tok.ws " " :: Tok.ident "or" :: Tok.ws " "
          :: printItems "or" (SupportsCondition.or (c1 :: c2 :: cs3))
            (c2 :: cs3) := by
    simp only [printItems, hitem1]
    rfl
  rw [hpr] at hf ⊢
  rw [sizeL_cons, sizeL_cons, sizeL_cons, sizeL_cons, sizeT_ident, sizeT_ws] at hf
  have hop1 := sizeT_pos (opTok c1)
  obtain ⟨f1, rfl⟩ : ∃ f1, f = f1 + 1 := ⟨f - 1, by omega⟩
  have hitems : ∀ x ∈ c2 :: cs3,
      (if x.needs_parens (SupportsCondition.or (c1 :: c2 :: cs3)) then
        [Tok.paren (printToks x)] else printToks x) = [opTok x] := by
    intro x hx
    have hxw := wfL_mem _ x hwl' hx
    have hxo : x.isOr = false := by
      have := List.all_eq_true.mp hall' x hx
      simpa using this
    exact item_opTok x _ hxw (by simp [SupportsCondition.isAnd]) (by simp [hxo])
  have hloop := loop_ok (c2 :: cs3) "or"
    (SupportsCondition.or (c1 :: c2 :: cs3)) 2 Option.none c1 []
    (by simp) hwl' hnfl' hitems (by decide) (Or.inl rfl) f1
    (by rw [sizeL_cons, sizeL_cons, sizeL_cons, sizeT_ident, sizeT_ws]; omega)
  have hu := unitParse_ok c1 hwf1 hnf1 f1 (by omega)
  rcases opTok_shape c1 hwf1 with ⟨b, hb⟩ | ⟨n, b, hb⟩
  · rw [hb] at hu ⊢
    have h0 : skipWsToks (Tok.paren b :: Tok.ws " " :: Tok.ident "or"
        :: Tok.ws " " :: printItems "or"
          (SupportsCondition.or (c1 :: c2 :: cs3)) (c2 :: cs3))
      = Tok.paren b :: Tok.ws " " :: Tok.ident "or" :: Tok.ws " "
        :: printItems "or" (SupportsCondition.or (c1 :: c2 :: cs3))
          (c2 :: cs3) := rfl
    simp [parseF, h0, hu, hloop]
  · rw [hb] at hu ⊢
    have h0 : skipWsToks (Tok.func n b :: Tok.ws " " :: Tok.ident "or"
        :: Tok.ws " " :: printItems "or"
          (SupportsCondition.or (c1 :: c2 :: cs3)) (c2 :: cs3))
      = Tok.func n b :: Tok.ws " " :: Tok.ident "or" :: Tok.ws " "
        :: printItems "or" (SupportsCondition.or (c1 :: c2 :: cs3))
          (c2 :: cs3) := rfl
    simp [parseF, h0, hu, hloop]
termination_by 2 * sizeOf l + 1

/-- The parse loop consumes a keyword-and-unit sequence, accumulating the
printed members in order and consuming the entire input. -/
theorem loop_ok (cs : List SupportsCondition) (kw : String)
    (parent : SupportsCondition) (ft : Nat) (e : Option Nat)
    (first : SupportsCondition) (conds : List SupportsCondition)
    (hne : cs ≠ []) (hwcs : wfL cs = true) (hncs : noFlatL cs = true)
    (hitems : ∀ c ∈ cs, (if c.needs_parens parent then
      [Tok.paren (printToks c)] else printToks c) = [opTok c])
    (hfound : (if eqIgnoreCase kw "and" then some 1
      else if eqIgnoreCase kw "or" then some 2 else Option.none) = some ft)
    (he : e = Option.none ∨ e = some ft) (f : Nat)
    (hf : sizeL (Tok.ws " " :: Tok.ident kw :: Tok.ws " "
      :: printItems kw parent cs) + 2 ≤ f) :
    parseLoopF f e first conds (Tok.ws " " :: Tok.ident kw :: Tok.ws " "
        :: printItems kw parent cs)
      = (some ft, (if conds.isEmpty then [first] else conds) ++ cs, []) := by
  cases cs with
  | nil => exact absurd rfl hne
  | cons c cs' =>
    have hsp1 : wfSC c = true ∧ wfL cs' = true := by
      rw [show wfL (c :: cs') = (wfSC c && wfL cs') from rfl,
        Bool.and_eq_true] at hwcs
      exact hwcs
    have hsp2 : noFlat c = true ∧ noFlatL cs' = true := by
      rw [show noFlatL (c :: cs') = (noFlat c && noFlatL cs') from rfl,
        Bool.and_eq_true] at hncs
      exact hncs
    obtain ⟨hwc, hwcs'⟩ := hsp1
    obtain ⟨hnc, hncs'⟩ := hsp2
    have hg : ¬(e ≠ Option.none ∧ e ≠ some ft) := by
      rcases he with rfl | rfl <;> simp
    cases cs' with
    | nil =>
      have hpi : printItems kw parent [c] = [opTok c] := by
        simp only [printItems]
        exact hitems c (by simp)
      rw [hpi] at hf ⊢
      rw [sizeL_cons, sizeL_cons, sizeL_cons, sizeL_cons, sizeL_nil,
        sizeT_ident, sizeT_ws] at hf
      obtain ⟨f1, rfl⟩ : ∃ f1, f = f1 + 1 := ⟨f - 1, by omega⟩
      have h0 : skipWsToks (Tok.ws " " :: Tok.ident kw :: Tok.ws " "
          :: [opTok c]) = Tok.ident kw :: Tok.ws " " :: [opTok c] := rfl
      have h1 : skipWsToks (Tok.ws " " :: [opTok c]) = [opTok c] := by
        show skipWsToks [opTok c] = [opTok c]
        rcases opTok_shape c hwc with ⟨b, hb⟩ | ⟨n, b, hb⟩ <;> rw [hb] <;> rfl
      have hu := unitParse_ok c hwc hnc f1 (by omega)
      simp only [parseLoopF, h0, hfound, if_neg hg, h1, hu, parseLoopF_nil]
      by_cases hc : conds.isEmpty <;> simp [hc]
    | cons c2 cs3 =>
      have hpi : printItems kw parent (c :: c2 :: cs3)
          = opTok c :: Tok.ws " " :: Tok.ident kw :: Tok.ws " "
            :: printItems kw parent (c2 :: cs3) := by
        simp only [printItems, hitems c (by simp)]
        rfl
      rw [hpi] at hf ⊢
      rw [sizeL_cons, sizeL_cons, sizeL_cons, sizeL_cons, sizeL_cons,
        sizeL_cons, sizeL_cons, sizeT_ident, sizeT_ws] at hf
      obtain ⟨f1, rfl⟩ : ∃ f1, f = f1 + 1 := ⟨f - 1, by omega⟩
      have h0 : skipWsToks (Tok.ws " " :: Tok.ident kw :: Tok.ws " "
          :: opTok c :: Tok.ws " " :: Tok.ident kw :: Tok.ws " "
          :: printItems kw parent (c2 :: cs3))
        = Tok.ident kw :: Tok.ws " " :: opTok c :: Tok.ws " "
          :: Tok.ident kw :: Tok.ws " "
          :: printItems kw parent (c2 :: cs3) := rfl
      have h1 : skipWsToks (Tok.ws " " :: opTok c :: Tok.ws " "
          :: Tok.ident kw :: Tok.ws " " :: printItems kw parent (c2 :: cs3))
        = opTok c :: Tok.ws " " :: Tok.ident kw :: Tok.ws " "
          :: printItems kw parent (c2 :: cs3) := by
        show skipWsToks (opTok c :: Tok.ws " " :: Tok.ident kw :: Tok.ws " "
          :: printItems kw parent (c2 :: cs3)) = _
        rcases opTok_shape c hwc with ⟨b, hb⟩ | ⟨n, b, hb⟩ <;> rw [hb] <;> rfl
      have hu := unitParse_ok c hwc hnc f1 (by omega)
      have hrec := loop_ok (c2 :: cs3) kw parent ft (some ft) first
        (if conds.isEmpty then [first, c] else conds ++ [c])
        (by simp) hwcs' hncs'
        (fun x hx => hitems x (List.mem_cons_of_mem _ hx)) hfound
        (Or.inr rfl) f1
        (by rw [sizeL_cons, sizeL_cons, sizeL_cons, sizeT_ident, sizeT_ws]
            omega)
      simp only [parseLoopF, h0, hfound, if_neg hg, h1, hu, hrec]
      have hne2 : (conds ++ [c]).isEmpty = false := by cases conds <;> rfl
      by_cases hc : conds.isEmpty <;> simp [hc, hne2, List.append_assoc]
termination_by 2 * sizeOf cs + 1

end

end Supports

namespace Supports

/-- The condition parser recovers any well-formed flat condition from its
singleton unit-token stream. -/
theorem singleParse_ok (C : SupportsCondition) (hwf : wfSC C = true)
    (hnf : noFlat C = true) :
    SupportsCondition.parse [opTok C] = some (C, []) := by
  have hfu : parseFuelFor [opTok C] = (1 + sizeT (opTok C)) + 1 := by
    rw [show parseFuelFor [opTok C] = 2 + sizeL [opTok C] from rfl,
      sizeL_cons, sizeL_nil]
    omega
  rw [show SupportsCondition.parse [opTok C]
    = parseF (parseFuelFor [opTok C]) [opTok C] from rfl, hfu]
  have hu := unitParse_ok C hwf hnf (1 + sizeT (opTok C)) (by omega)
  rcases opTok_shape C hwf with ⟨b, hb⟩ | ⟨n, b, hb⟩
  · rw [hb] at hu ⊢
    have h0 : skipWsToks [Tok.paren b] = [Tok.paren b] := rfl
    simp [parseF, h0, hu, parseLoopF_nil]
  · rw [hb] at hu ⊢
    have h0 : skipWsToks [Tok.func n b] = [Tok.func n b] := rfl
    simp [parseF, h0, hu, parseLoopF_nil]

/-- `SupportsCondition::parse` inverts the token-level printer on every
well-formed condition with no directly-nested same-kind list, consuming the
whole stream. -/
theorem parse_printToks (C : SupportsCondition) (hwf : wfSC C = true)
    (hnf : noFlat C = true) :
    SupportsCondition.parse (printToks C) = some (C, []) := by
  cases C with
  | not c =>
    exact notParse_ok c hwf hnf _
      (by have h : parseFuelFor (printToks (SupportsCondition.not c))
            = 2 + sizeL (printToks (SupportsCondition.not c)) := rfl
          omega)
  | and l =>
    simp only [wfSC, Bool.and_eq_true, decide_eq_true_eq] at hwf
    simp only [noFlat, Bool.and_eq_true] at hnf
    exact andParse_ok l hwf.1 hwf.2 hnf.2 hnf.1 _
      (by have h : parseFuelFor (printToks (SupportsCondition.and l))
            = 2 + sizeL (printItems "and" (SupportsCondition.and l) l) := rfl
          omega)
  | or l =>
    simp only [wfSC, Bool.and_eq_true, decide_eq_true_eq] at hwf
    simp only [noFlat, Bool.and_eq_true] at hnf
    exact orParse_ok l hwf.1 hwf.2 hnf.2 hnf.1 _
      (by have h : parseFuelFor (printToks (SupportsCondition.or l))
            = 2 + sizeL (printItems "or" (SupportsCondition.or l) l) := rfl
          omega)
  | declaration p v =>
    rw [unit_print _ hwf (by simp [SupportsCondition.isNot,
      SupportsCondition.isAnd, SupportsCondition.isOr])]
    exact singleParse_ok _ hwf hnf
  | selector s =>
    rw [unit_print _ hwf (by simp [SupportsCondition.isNot,
      SupportsCondition.isAnd, SupportsCondition.isOr])]
    exact singleParse_ok _ hwf hnf
  | unknown s =>
    rw [unit_print _ hwf (by simp [SupportsCondition.isNot,
      SupportsCondition.isAnd, SupportsCondition.isOr])]
    exact singleParse_ok _ hwf hnf

/-- Print-then-reparse (through the full token source) is the identity on
well-formed conditions with no directly-nested same-kind list. -/
theorem roundtrip_toCss (C : SupportsCondition) (hwf : wfSC C = true)
    (hnf : noFlat C = true) :
    reparse (SupportsCondition.to_css C) = some (C, []) := by
  rw [reparse, tokenize_toCss C hwf hnf, Option.bind]
  exact parse_printToks C hwf hnf

end Supports

namespace Supports

/-- C1: **corrected.**  The round-trip claim fails as stated: the parser can
produce a tree in which an `And` list directly contains an `And` member
(from doubly-parenthesized input), and printing such a tree drops the inner
parentheses (`needs_parens` is false for `And` inside `And`), so re-parsing
yields the flattened list, not the original tree. -/
theorem C1_nested_and_not_roundtripped :
    reparse "((a: 1) and (b: 2)) and (c: 3)"
      = some (SupportsCondition.and
          [SupportsCondition.and
            [SupportsCondition.declaration ⟨"a", VendorPrefix.noneOnly⟩ "1",
             SupportsCondition.declaration ⟨"b", VendorPrefix.noneOnly⟩ "2"],
           SupportsCondition.declaration ⟨"c", VendorPrefix.noneOnly⟩ "3"], [])
  ∧ SupportsCondition.to_css (SupportsCondition.and
          [SupportsCondition.and
            [SupportsCondition.declaration ⟨"a", VendorPrefix.noneOnly⟩ "1",
             SupportsCondition.declaration ⟨"b", VendorPrefix.noneOnly⟩ "2"],
           SupportsCondition.declaration ⟨"c", VendorPrefix.noneOnly⟩ "3"])
      = "(a: 1) and (b: 2) and (c: 3)"
  ∧ reparse "(a: 1) and (b: 2) and (c: 3)"
      = some (SupportsCondition.and
          [SupportsCondition.declaration ⟨"a", VendorPrefix.noneOnly⟩ "1",
           SupportsCondition.declaration ⟨"b", VendorPrefix.noneOnly⟩ "2",
           SupportsCondition.declaration ⟨"c", VendorPrefix.noneOnly⟩ "3"], [])
  ∧ (SupportsCondition.and
          [SupportsCondition.and
            [SupportsCondition.declaration ⟨"a", VendorPrefix.noneOnly⟩ "1",
             SupportsCondition.declaration ⟨"b", VendorPrefix.noneOnly⟩ "2"],
           SupportsCondition.declaration ⟨"c", VendorPrefix.noneOnly⟩ "3"]
        ≠ SupportsCondition.and
          [SupportsCondition.declaration ⟨"a", VendorPrefix.noneOnly⟩ "1",
           SupportsCondition.declaration ⟨"b", VendorPrefix.noneOnly⟩ "2",
           SupportsCondition.declaration ⟨"c", VendorPrefix.noneOnly⟩ "3"]) := by
  refine ⟨by decide, by decide, by decide, by decide⟩

/-- C1 (amended): printing with `to_css` and re-parsing the printed text is
the identity on every parser-shaped condition tree (`wfSC`) in which no
`And` list directly contains an `And` member and no `Or` list directly
contains an `Or` member (`noFlat`); the parse consumes the whole text. -/
theorem C1_roundtrip_modulo_flattening (C : SupportsCondition)
    (hwf : wfSC C = true) (hnf : noFlat C = true) :
    reparse (SupportsCondition.to_css C) = some (C, []) :=
  roundtrip_toCss C hwf hnf

/-- C1 witness: a concrete mixed tree (a declaration conjoined with a
negated declaration) satisfying both hypotheses round-trips. -/
theorem C1_roundtrip_witness :
    wfSC (SupportsCondition.and
        [SupportsCondition.declaration ⟨"a", VendorPrefix.noneOnly⟩ "1",
         SupportsCondition.not (SupportsCondition.declaration
           ⟨"b", VendorPrefix.noneOnly⟩ "2")]) = true
  ∧ noFlat (SupportsCondition.and
        [SupportsCondition.declaration ⟨"a", VendorPrefix.noneOnly⟩ "1",
         SupportsCondition.not (SupportsCondition.declaration
           ⟨"b", VendorPrefix.noneOnly⟩ "2")]) = true
  ∧ reparse (SupportsCondition.to_css (SupportsCondition.and
        [SupportsCondition.declaration ⟨"a", VendorPrefix.noneOnly⟩ "1",
         SupportsCondition.not (SupportsCondition.declaration
           ⟨"b", VendorPrefix.noneOnly⟩ "2")]))
      = some (SupportsCondition.and
          [SupportsCondition.declaration ⟨"a", VendorPrefix.noneOnly⟩ "1",
           SupportsCondition.not (SupportsCondition.declaration
             ⟨"b", VendorPrefix.noneOnly⟩ "2")], []) :=
  ⟨by decide, by decide,
    C1_roundtrip_modulo_flattening _ (by decide) (by decide)⟩

end Supports
